import Mathlib

/-!
# Verification of the local-memory-assistant memory layer

Shallow embedding of the memory subsystem of the repository
(`src/memory.py`, `src/llm.py`) together with theorems settling the
specification claims.

Modelling conventions:
* Python strings are lists of characters (`Str`); `len`, slicing,
  `strip`, `in` (substring), `startswith`, `replace(..., 1)` are
  embedded as executable functions below.
* Python dict results (`{"success": ..., "error": ...}`) are sum types.
* `datetime.now()` is an explicit timestamp argument.
* File I/O never fails in the model (claims are about the logic, not
  about disk errors), and the vault/`OBSIDIAN_PATH` is configured.
-/

/-- Python strings, modelled as lists of characters. -/
abbrev Str := List Char

/-- Coerce a Lean string literal to the model representation. -/
def lit (s : String) : Str := s.data

/-- The whitespace characters stripped by Python `str.strip()` and
matched by `\s` in the regexes of `memory.py` (ASCII range). -/
def isWS (c : Char) : Bool :=
  (c = ' ') || (c = '\t') || (c = '\n') || (c = '\r') ||
  (c = Char.ofNat 11) || (c = Char.ofNat 12)

/-- Python `str.lstrip()`. -/
def lstrip (s : Str) : Str := s.dropWhile isWS

/-- Python `str.rstrip()`. -/
def rstrip (s : Str) : Str := (s.reverse.dropWhile isWS).reverse

/-- Python `str.strip()`. -/
def strip (s : Str) : Str := lstrip (rstrip s)

/-- Python `s.split('\n')`. -/
def splitLines (s : Str) : List Str := s.splitOn '\n'

/-- Python `'\n'.join(lines)`. -/
def unlines (ls : List Str) : Str := List.intercalate ['\n'] ls

/-- Python `needle in hay` (substring containment). -/
def containsSub (needle hay : Str) : Bool :=
  hay.tails.any (fun t => needle.isPrefixOf t)

/-- Python `str.lower()` (ASCII, as in the paths/identifiers used here). -/
def lowerStr (s : Str) : Str := s.map Char.toLower

-- ---------------------------------------------------------------------------
-- Basic lemmas about the string utilities
-- ---------------------------------------------------------------------------

/-- Every element of every group produced by `List.splitOnP` fails `p`. -/
theorem mem_splitOnP_no_seps (p : α → Bool) (s : List α) :
    ∀ g ∈ s.splitOnP p, ∀ x ∈ g, p x = false := by
  induction s with
  | nil =>
    intro g hg x hx
    rw [List.splitOnP_nil, List.mem_singleton] at hg
    subst hg; simp at hx
  | cons a s ih =>
    intro g hg x hx
    rw [List.splitOnP_cons] at hg
    by_cases hpa : p a
    · rw [if_pos hpa, List.mem_cons] at hg
      rcases hg with hg | hg
      · subst hg; simp at hx
      · exact ih g hg x hx
    · rw [if_neg hpa] at hg
      rcases hsp : s.splitOnP p with _ | ⟨g0, gs⟩
      · exact absurd hsp (List.splitOnP_ne_nil p s)
      · rw [hsp] at hg
        simp only [List.modifyHead, List.mem_cons] at hg
        rcases hg with hg | hg
        · subst hg
          rcases List.mem_cons.mp hx with hx1 | hx1
          · subst hx1
            simpa using hpa
          · exact ih g0 (by rw [hsp]; exact List.mem_cons_self g0 gs) x hx1
        · exact ih g (by rw [hsp]; exact List.mem_cons_of_mem g0 hg) x hx

theorem lines_mem_no_newline (s : Str) :
    ∀ l ∈ splitLines s, '\n' ∉ l := by
  intro l hl hc
  have := mem_splitOnP_no_seps (· == '\n') s l hl '\n' hc
  simp at this

theorem unlines_splitLines (s : Str) : unlines (splitLines s) = s := by
  unfold unlines splitLines
  exact List.intercalate_splitOn s '\n'

theorem splitLines_unlines (ls : List Str) (hne : ls ≠ [])
    (h : ∀ l ∈ ls, '\n' ∉ l) :
    splitLines (unlines ls) = ls := by
  unfold unlines splitLines
  exact List.splitOn_intercalate ls '\n' h hne

theorem unlines_single (a : Str) : unlines [a] = a := by
  simp [unlines, List.intercalate]

theorem unlines_cons_cons (a b : Str) (ls : List Str) :
    unlines (a :: b :: ls) = a ++ '\n' :: unlines (b :: ls) := by
  simp [unlines, List.intercalate, List.intersperse_cons_cons]

theorem unlines_append (xs ys : List Str) (hxs : xs ≠ []) (hys : ys ≠ []) :
    unlines (xs ++ ys) = unlines xs ++ '\n' :: unlines ys := by
  induction xs with
  | nil => exact absurd rfl hxs
  | cons g gs ih =>
    rcases gs with _ | ⟨g2, gs⟩
    · rcases ys with _ | ⟨y, ys⟩
      · exact absurd rfl hys
      · rw [List.singleton_append, unlines_cons_cons, unlines_single]
    · have h2 := ih (by simp)
      simp only [List.cons_append] at h2 ⊢
      rw [unlines_cons_cons, h2, unlines_cons_cons]
      simp

-- ---------------------------------------------------------------------------
-- memory.py: token estimation and core memory (claim C2)
-- ---------------------------------------------------------------------------

/-- `CHARS_PER_TOKEN = 4` (memory.py line 85). -/
def CHARS_PER_TOKEN : Nat := 4

/-- `CORE_MEMORY_MAX_TOKENS = 500` (memory.py line 82). -/
def CORE_MEMORY_MAX_TOKENS : Nat := 500

/-- `estimate_tokens` (memory.py lines 88-92): `0` for the empty/falsy
string, else `(len(text) + CHARS_PER_TOKEN - 1) // CHARS_PER_TOKEN`. -/
def estimate_tokens (text : Str) : Nat :=
  if text = [] then 0 else (text.length + CHARS_PER_TOKEN - 1) / CHARS_PER_TOKEN

/-- Result of `update_core_memory`: success or the exceeds-limit error,
each carrying the reported token estimate. -/
inductive CoreWrite
  | ok (tokens : Nat)
  | exceedsLimit (tokens : Nat)
deriving DecidableEq, Repr

/-- `update_core_memory` (memory.py lines 719-746), modelled on the state
of the core-memory file content.  The vault is configured and I/O
succeeds; `ensure_memory_structure` leaves an existing core file alone
and the subsequent `write_text` overwrites it, so the net effect on the
core file is captured by the returned state. -/
def update_core_memory (content : Str) (core : Str) : CoreWrite × Str :=
  let tokens := estimate_tokens content
  if tokens > CORE_MEMORY_MAX_TOKENS then
    (CoreWrite.exceedsLimit tokens, core)
  else
    (CoreWrite.ok tokens, content)

/-- **C2**: `update_core_memory` fails with the "exceeds limit" error iff
`ceil(len(content)/4) > 500`, i.e. iff `len(content) > 2000` (so content
estimating exactly 500 tokens — length 1997..2000 — succeeds and content
estimating 501 tokens fails); on failure the core-memory file is left
unchanged (no partial write), and on success it holds the new content. -/
theorem update_core_memory_exceeds_iff (content core : Str) :
    ((update_core_memory content core).1
        = CoreWrite.exceedsLimit (estimate_tokens content)
      ↔ 2000 < content.length)
    ∧ (500 < estimate_tokens content ↔ 2000 < content.length)
    ∧ (2000 < content.length → (update_core_memory content core).2 = core)
    ∧ (content.length ≤ 2000 → (update_core_memory content core).2 = content) := by
  have hiff : 500 < estimate_tokens content ↔ 2000 < content.length := by
    unfold estimate_tokens CHARS_PER_TOKEN
    split
    · next h => subst h; simp
    · next h =>
      have : content.length ≠ 0 := by
        intro h0; exact h (List.eq_nil_of_length_eq_zero h0)
      omega
  refine ⟨?_, hiff, ?_, ?_⟩
  · unfold update_core_memory CORE_MEMORY_MAX_TOKENS
    constructor
    · intro h
      by_cases hgt : 500 < estimate_tokens content
      · exact hiff.mp hgt
      · simp only [gt_iff_lt, hgt, if_false] at h
        exact absurd h (by simp)
    · intro h
      have := hiff.mpr h
      simp [this]
  · intro h
    have := hiff.mpr h
    unfold update_core_memory CORE_MEMORY_MAX_TOKENS
    simp [this]
  · intro h
    have : ¬ 500 < estimate_tokens content := by
      intro hc; exact absurd (hiff.mp hc) (by omega)
    unfold update_core_memory CORE_MEMORY_MAX_TOKENS
    simp [this]

/-- Boundary witness for C2: a 2000-character content (exactly 500
estimated tokens) is written, a 2001-character content (501 tokens) is
rejected leaving the previous core content in place. -/
theorem update_core_memory_exceeds_iff_witness :
    (update_core_memory (List.replicate 2000 'x') (lit ("old"))).2
        = List.replicate 2000 'x'
    ∧ (update_core_memory (List.replicate 2001 'x') (lit ("old"))).2
        = lit ("old") := by
  have h1 := update_core_memory_exceeds_iff (List.replicate 2000 'x') (lit ("old"))
  have h2 := update_core_memory_exceeds_iff (List.replicate 2001 'x') (lit ("old"))
  refine ⟨h1.2.2.2 ?_, h2.2.2.1 ?_⟩
  · rw [List.length_replicate]
  · rw [List.length_replicate]
    omega

-- ---------------------------------------------------------------------------
-- More string utilities: substring containment as an explicit decomposition
-- ---------------------------------------------------------------------------

theorem isPrefixOf_iff_append (n m : Str) :
    n.isPrefixOf m = true ↔ ∃ t, m = n ++ t := by
  induction n generalizing m with
  | nil => simp [List.isPrefixOf]
  | cons a n ih =>
    cases m with
    | nil => simp [List.isPrefixOf]
    | cons b m =>
      simp only [List.isPrefixOf, Bool.and_eq_true, beq_iff_eq, ih, List.cons_append,
        List.cons.injEq]
      constructor
      · rintro ⟨hab, t, ht⟩; exact ⟨t, hab.symm, ht⟩
      · rintro ⟨t, hab, ht⟩; exact ⟨hab.symm, t, ht⟩

theorem containsSub_iff (n h : Str) :
    containsSub n h = true ↔ ∃ a b, h = a ++ n ++ b := by
  induction h with
  | nil =>
    simp only [containsSub, List.tails, List.any_cons, List.any_nil, Bool.or_false]
    rw [isPrefixOf_iff_append]
    constructor
    · rintro ⟨t, ht⟩; exact ⟨[], t, by simpa using ht⟩
    · rintro ⟨a, b, hab⟩
      have ha : a = [] := by
        cases a with
        | nil => rfl
        | cons x a => simp at hab
      subst ha
      exact ⟨b, by simpa using hab⟩
  | cons c h ih =>
    have hstep : containsSub n (c :: h)
        = (n.isPrefixOf (c :: h) || containsSub n h) := by
      simp [containsSub, List.tails]
    rw [hstep, Bool.or_eq_true, isPrefixOf_iff_append, ih]
    constructor
    · rintro (⟨t, ht⟩ | ⟨a, b, hab⟩)
      · exact ⟨[], t, by simpa using ht⟩
      · exact ⟨c :: a, b, by simp [hab]⟩
    · rintro ⟨a, b, hab⟩
      cases a with
      | nil => exact Or.inl ⟨b, by simpa using hab⟩
      | cons x a =>
        simp only [List.cons_append, List.cons.injEq] at hab
        exact Or.inr ⟨a, b, hab.2⟩

/-- The head group of `splitOnP` is a prefix of the input, and every
group is a contiguous segment of the input. -/
theorem splitOnP_groups_within (p : α → Bool) (s : List α) :
    (∃ t, s = (s.splitOnP p).headI ++ t)
    ∧ ∀ g ∈ s.splitOnP p, ∃ a b, s = a ++ g ++ b := by
  induction s with
  | nil =>
    refine ⟨⟨[], by simp [List.splitOnP_nil]⟩, ?_⟩
    intro g hg
    rw [List.splitOnP_nil, List.mem_singleton] at hg
    exact ⟨[], [], by simp [hg]⟩
  | cons c s ih =>
    rcases hsp : s.splitOnP p with _ | ⟨g0, gs⟩
    · exact absurd hsp (List.splitOnP_ne_nil p s)
    rw [hsp] at ih
    by_cases hpc : p c
    · rw [List.splitOnP_cons, if_pos hpc]
      refine ⟨⟨c :: s, by simp⟩, ?_⟩
      intro g hg
      rcases List.mem_cons.mp hg with hg1 | hg1
      · exact ⟨[], c :: s, by simp [hg1]⟩
      · obtain ⟨a, b, hab⟩ := ih.2 g (by rw [hsp] at hg1; exact hg1)
        exact ⟨c :: a, b, by simp [hab]⟩
    · rw [List.splitOnP_cons, if_neg hpc, hsp]
      simp only [List.modifyHead, List.headI]
      obtain ⟨t, ht⟩ := ih.1
      simp only [List.headI] at ht
      refine ⟨⟨t, by simp [ht]⟩, ?_⟩
      intro g hg
      rcases List.mem_cons.mp hg with hg1 | hg1
      · exact ⟨[], t, by simp [hg1, ht]⟩
      · obtain ⟨a, b, hab⟩ := ih.2 g (List.mem_cons_of_mem g0 hg1)
        exact ⟨c :: a, b, by simp [hab]⟩

-- ---------------------------------------------------------------------------
-- memory.py: path-safe unified file access (read_memory_file /
-- write_memory_file, lines 814-906) over an explicit file-system model
-- ---------------------------------------------------------------------------

/-- The file system under the memory root: an association list from
root-relative POSIX paths (e.g. `context/personal.md`) to file contents,
plus the set of directories that exist (root-relative).  All keys are
relative to the configured `AI Memory` root. -/
structure MemFS where
  files : List (Str × Str)
  dirs : List Str
deriving DecidableEq, Repr

/-- Look up a file by exact path. -/
def MemFS.file? (fs : MemFS) (k : Str) : Option Str :=
  (fs.files.find? (fun kv => kv.1 == k)).map (fun kv => kv.2)

/-- Overwrite-or-create a file (Python `Path.write_text`). -/
def setFile (files : List (Str × Str)) (k v : Str) : List (Str × Str) :=
  match files with
  | [] => [(k, v)]
  | kv :: rest => if kv.1 == k then (k, v) :: rest else kv :: setFile rest k v

/-- Python `path.strip("/")`. -/
def stripSlashes (s : Str) : Str :=
  ((s.dropWhile (fun c => c = '/')).reverse.dropWhile (fun c => c = '/')).reverse

/-- `path.split('/')`. -/
def pathSegs (p : Str) : List Str := p.splitOn '/'

/-- The chain of parent directories created by
`file_path.parent.mkdir(parents=True)` for the file `p + ".md"`:
all nonempty proper prefixes of `p` up to its last `/`. -/
def ancestorDirs (p : Str) : List Str :=
  let segs := (pathSegs p).dropLast
  (List.range segs.length).map (fun i => List.intercalate ['/'] (segs.take (i + 1)))

/-- `path.startswith(("/", "\\", "~"))`. -/
def startsWithSep (p : Str) : Bool :=
  match p with
  | [] => false
  | c :: _ => (c = '/') || (c = '\\') || (c = '~')

/-- The string checks shared by `read_memory_file` / `write_memory_file`
(memory.py lines 828 and 877): reject `..` anywhere, a leading `/`,
`\ `, or `~`, and `:` anywhere. -/
def badPathString (p : Str) : Bool :=
  containsSub (lit ("..")) p || startsWithSep p || containsSub (lit (":")) p

/-- `path.lower().replace("-", "").replace("_", "")` (memory.py 881). -/
def coreGuardKey (p : Str) : Str :=
  (lowerStr p).filter (fun c => !((c = '-') || (c = '_')))

/-- The soul-namespace guard (memory.py 885-887). -/
def soulGuard (p : Str) : Bool :=
  let pl := stripSlashes (lowerStr p)
  (pl == lit ("soul")) || (pl == lit ("soul.md")) || (lit ("soul/")).isPrefixOf pl

/-- Errors of `write_memory_file`; the carried messages in the source
identify the offending rule (traversal, protected namespace, ...). -/
inductive WriteErr
  | pathRequired        -- "path is required"
  | invalidPath         -- "Invalid path: ..."
  | useUpdateCoreMemory -- "Use update_core_memory to modify core memory ..."
  | useUpdateSoul       -- "Use update_soul to modify soul files"
  | useArchiveMemory    -- "Use archive_memory to append to archives"
deriving DecidableEq, Repr

inductive WriteRes
  | ok (filepath : Str)
  | err (e : WriteErr)
deriving DecidableEq, Repr

/-- `write_memory_file` (memory.py lines 864-906).  The
`resolve().relative_to(root)` defense-in-depth check always passes in
the model: a path that survived the string checks contains no `..` and
is root-relative, so (absent symlinks, which the model excludes) its
resolution is a descendant of the root. -/
def write_memory_file (path content : Str) (fs : MemFS) : WriteRes × MemFS :=
  let p := stripSlashes (strip path)
  if p = [] then (WriteRes.err WriteErr.pathRequired, fs)
  else if badPathString p then (WriteRes.err WriteErr.invalidPath, fs)
  else if coreGuardKey p == lit ("corememory") then
    (WriteRes.err WriteErr.useUpdateCoreMemory, fs)
  else if soulGuard p then (WriteRes.err WriteErr.useUpdateSoul, fs)
  else if (lit ("archive")).isPrefixOf p then
    (WriteRes.err WriteErr.useArchiveMemory, fs)
  else
    let key := p ++ lit (".md")
    (WriteRes.ok key,
      { files := setFile fs.files key (strip content),
        dirs := fs.dirs ++ ancestorDirs p })

/-- The `.md` files directly inside directory `p`, as
`(key, stem, content)` triples, in the (stable) order of `fs.files`. -/
def dirMdFiles (fs : MemFS) (p : Str) : List (Str × Str × Str) :=
  fs.files.filterMap (fun kv =>
    if (p ++ ['/']).isPrefixOf kv.1 then
      let name := kv.1.drop (p.length + 1)
      if (lit (".md")).isSuffixOf name && !(name.contains '/') then
        some (kv.1, name.take (name.length - 3), kv.2)
      else none
    else none)

/-- Lexicographic strict order on strings (the order `sorted()` uses on
same-directory `Path`s, which compare by their path string). -/
def strLt : Str → Str → Bool
  | [], [] => false
  | [], _ :: _ => true
  | _ :: _, [] => false
  | a :: s, b :: t => if a < b then true else if a = b then strLt s t else false

def strLe (a b : Str) : Bool := strLt a b || a == b

/-- Stable insertion sort (Python `sorted`; the keys sorted here are
distinct file paths, so any stable comparison sort coincides). -/
def insertSorted (le : α → α → Bool) (x : α) : List α → List α
  | [] => [x]
  | y :: ys => if le x y then x :: y :: ys else y :: insertSorted le x ys

def insSort (le : α → α → Bool) : List α → List α
  | [] => []
  | x :: xs => insertSorted le x (insSort le xs)

/-- `read_memory_file` (memory.py lines 814-861).  Directory mode:
`sorted(dir_path.glob("*.md"))` sorts by path string; each file with
non-empty stripped content contributes `## <stem>\n\n<content>`. -/
def read_memory_file (path : Str) (fs : MemFS) : Str :=
  let p := stripSlashes (strip path)
  if p = [] then []
  else if badPathString p then []
  else
    let dirBits :=
      if fs.dirs.contains p then
        (insSort (fun x y => strLe x.1 y.1) (dirMdFiles fs p)).filterMap
          (fun e =>
            let c := strip e.2.2
            if c = [] then none
            else some (lit ("## ") ++ e.2.1 ++ lit ("\n\n") ++ c))
      else []
    if dirBits ≠ [] then List.intercalate (lit ("\n\n")) dirBits
    else
      match fs.file? (p ++ lit (".md")) with
      | some v => strip v
      | none => []

-- ---------------------------------------------------------------------------
-- strip is idempotent; setFile lookup
-- ---------------------------------------------------------------------------

theorem rstrip_eq_rdropWhile (s : Str) : rstrip s = List.rdropWhile isWS s := rfl

theorem lstrip_idem (s : Str) : lstrip (lstrip s) = lstrip s :=
  List.dropWhile_idempotent isWS s

theorem rstrip_rstrip (s : Str) : rstrip (rstrip s) = rstrip s := by
  rw [rstrip_eq_rdropWhile, rstrip_eq_rdropWhile]
  exact List.rdropWhile_idempotent isWS s

theorem rstrip_lstrip_of_rstripped (u : Str) (hu : rstrip u = u) :
    rstrip (lstrip u) = lstrip u := by
  rcases List.eq_nil_or_concat (lstrip u) with hnil | ⟨l2, c2, hl2⟩
  · rw [hnil]; rfl
  · rw [List.concat_eq_append] at hl2
    obtain ⟨t, ht⟩ : ∃ t, t ++ lstrip u = u := List.dropWhile_suffix isWS
    have hcws : isWS c2 = false := by
      by_contra hcw
      rw [Bool.not_eq_false] at hcw
      have h1 : rstrip u = rstrip (t ++ l2) := by
        conv_lhs => rw [← ht, hl2]
        rw [rstrip_eq_rdropWhile, rstrip_eq_rdropWhile, ← List.append_assoc]
        exact List.rdropWhile_concat_pos isWS (t ++ l2) c2 hcw
      have hple : (rstrip (t ++ l2)).length ≤ (t ++ l2).length := by
        rw [rstrip_eq_rdropWhile]
        exact List.IsPrefix.length_le ( List.rdropWhile_prefix isWS (t ++ l2) )
      have hulen : u.length = t.length + l2.length + 1 := by
        conv_lhs => rw [← ht, hl2]
        simp
        omega
      rw [h1] at hu
      have := congrArg List.length hu
      simp only [List.length_append] at hple this
      omega
    calc rstrip (lstrip u) = rstrip (l2 ++ [c2]) := by rw [hl2]
    _ = l2 ++ [c2] := by
      rw [rstrip_eq_rdropWhile]
      exact List.rdropWhile_concat_neg isWS l2 c2 (by simp [hcws])
    _ = lstrip u := hl2.symm

theorem strip_idem (s : Str) : strip (strip s) = strip s := by
  have h2 : rstrip (strip s) = strip s := by
    unfold strip
    exact rstrip_lstrip_of_rstripped (rstrip s) (rstrip_rstrip s)
  show lstrip (rstrip (strip s)) = strip s
  rw [h2]
  show lstrip (lstrip (rstrip s)) = strip s
  rw [lstrip_idem]
  rfl

theorem setFile_find_self (files : List (Str × Str)) (k v : Str) :
    (setFile files k v).find? (fun kv => kv.1 == k) = some (k, v) := by
  induction files with
  | nil => simp [setFile, List.find?]
  | cons kv rest ih =>
    by_cases hk : kv.1 == k
    · simp [setFile, hk, List.find?]
    · simp only [setFile, hk, Bool.false_eq_true, if_false]
      rw [List.find?_cons_of_neg _ (by simpa using hk)]
      exact ih

-- ---------------------------------------------------------------------------
-- Claim C1: path traversal in write_memory_file
-- ---------------------------------------------------------------------------

/-- **C1, counterexample**: the claim says `write("/etc/x", "y")` fails
with an error; in the code, `path.strip().strip("/")` removes the
leading slash before any check runs, so the call succeeds (writing to
`etc/x.md` inside the memory root) instead of erroring. -/
theorem write_absolute_path_succeeds :
    (write_memory_file (lit ("/etc/x")) (lit ("y")) ⟨[], []⟩).1
      = WriteRes.ok (lit ("etc/x.md")) := by rfl

/-- **C1, amended**: `write("../../etc/x", "y")` fails with an error and
changes nothing.  `write("/etc/x", "y")` does NOT fail: its leading `/`
is stripped by the path normalization and the write succeeds, targeting
`etc/x.md` inside the memory root.  In both cases — and after every
successful `write_memory_file` — no file is created outside the
configured root: every successful write stores content under a key
`p + ".md"` where `p` is nonempty, contains no `..` and no `:`, and does
not start with `/`, `\ `, or `~`, so its resolution is a strict
descendant of the root. -/
theorem write_memory_file_path_safety (fs : MemFS) :
    write_memory_file (lit ("../../etc/x")) (lit ("y")) fs
        = (WriteRes.err WriteErr.invalidPath, fs)
    ∧ (write_memory_file (lit ("/etc/x")) (lit ("y")) fs).1
        = WriteRes.ok (lit ("etc/x.md"))
    ∧ (write_memory_file (lit ("/etc/x")) (lit ("y")) fs).2.files
        = setFile fs.files (lit ("etc/x.md")) (lit ("y"))
    ∧ (∀ path content k fs2,
        write_memory_file path content fs = (WriteRes.ok k, fs2) →
        ∃ p, k = p ++ lit (".md") ∧ p ≠ []
          ∧ containsSub (lit ("..")) p = false
          ∧ startsWithSep p = false
          ∧ containsSub (lit (":")) p = false) := by
  refine ⟨rfl, rfl, rfl, ?_⟩
  intro path content k fs2 h
  unfold write_memory_file at h
  set p := stripSlashes (strip path) with hp
  by_cases h1 : p = []
  · rw [if_pos h1] at h; exact absurd (congrArg Prod.fst h) (by simp)
  rw [if_neg h1] at h
  by_cases h2 : badPathString p
  · rw [if_pos h2] at h; exact absurd (congrArg Prod.fst h) (by simp)
  rw [if_neg h2] at h
  by_cases h3 : coreGuardKey p == lit ("corememory")
  · rw [if_pos h3] at h; exact absurd (congrArg Prod.fst h) (by simp)
  rw [if_neg h3] at h
  by_cases h4 : soulGuard p
  · rw [if_pos h4] at h; exact absurd (congrArg Prod.fst h) (by simp)
  rw [if_neg h4] at h
  by_cases h5 : (lit ("archive")).isPrefixOf p
  · rw [if_pos h5] at h; exact absurd (congrArg Prod.fst h) (by simp)
  rw [if_neg h5] at h
  have hk : k = p ++ lit (".md") := by
    have := congrArg Prod.fst h
    simp at this
    exact this.symm
  unfold badPathString at h2
  simp only [Bool.or_eq_true, not_or, Bool.not_eq_true] at h2
  obtain ⟨⟨ha, hb⟩, hc⟩ := h2
  exact ⟨p, hk, h1, ha, hb, hc⟩

/-- Witness for C1's amended theorem at a concrete store and a concrete
successful write. -/
theorem write_memory_file_path_safety_witness :
    ∃ p, lit ("context/a.md") = p ++ lit (".md") ∧ p ≠ []
      ∧ containsSub (lit ("..")) p = false
      ∧ startsWithSep p = false
      ∧ containsSub (lit (":")) p = false :=
  (write_memory_file_path_safety ⟨[], []⟩).2.2.2
    (lit ("context/a")) (lit ("hello")) (lit ("context/a.md"))
    ⟨[(lit ("context/a.md"), lit ("hello"))], [lit ("context")]⟩ (by rfl)

-- ---------------------------------------------------------------------------
-- Claim C8: write/read round trip
-- ---------------------------------------------------------------------------

theorem file?_setFile (files : List (Str × Str)) (ds : List Str) (k v : Str) :
    MemFS.file? ⟨setFile files k v, ds⟩ k = some v := by
  unfold MemFS.file?
  show ((setFile files k v).find? (fun kv => kv.1 == k)).map (fun kv => kv.2)
      = some v
  rw [setFile_find_self]
  rfl

/-- A store exercising directory mode: the seeded `context/` directory
already holds `personal.md`. -/
def c8fs : MemFS :=
  ⟨[(lit ("context/personal.md"), lit ("# Personal stuff"))], [lit ("context")]⟩

/-- **C8, counterexample**: `context` is not under a protected namespace
(only core-memory, soul and archive are), yet
`write("context", "hello")` followed by `read("context")` does not
return `"hello"`: the write lands in the file `context.md`, while the
read prefers the existing directory `context/` and returns the
concatenation of its files. -/
theorem write_then_read_dir_shadow :
    (write_memory_file (lit ("context")) (lit ("hello")) c8fs).1
        = WriteRes.ok (lit ("context.md"))
    ∧ read_memory_file (lit ("context"))
        (write_memory_file (lit ("context")) (lit ("hello")) c8fs).2
      = lit ("## personal\n\n# Personal stuff")
    ∧ lit ("## personal\n\n# Personal stuff") ≠ strip (lit ("hello")) := by
  refine ⟨by rfl, by rfl, by decide⟩

/-- **C8, amended**: for every path on which `write_memory_file`
succeeds (in particular any path not under a protected namespace that
passes validation) and whose normalized form does not name an existing
directory, `write(path, X)` followed by `read(path)` returns exactly
`X.strip()`. -/
theorem write_then_read_roundtrip (path content : Str) (fs fs2 : MemFS) (k : Str)
    (hw : write_memory_file path content fs = (WriteRes.ok k, fs2))
    (hdir : fs2.dirs.contains (stripSlashes (strip path)) = false) :
    read_memory_file path fs2 = strip content := by
  unfold write_memory_file at hw
  set p := stripSlashes (strip path) with hp
  by_cases h1 : p = []
  · rw [if_pos h1] at hw; exact absurd (congrArg Prod.fst hw) (by simp)
  rw [if_neg h1] at hw
  by_cases h2 : badPathString p
  · rw [if_pos h2] at hw; exact absurd (congrArg Prod.fst hw) (by simp)
  rw [if_neg h2] at hw
  by_cases h3 : coreGuardKey p == lit ("corememory")
  · rw [if_pos h3] at hw; exact absurd (congrArg Prod.fst hw) (by simp)
  rw [if_neg h3] at hw
  by_cases h4 : soulGuard p
  · rw [if_pos h4] at hw; exact absurd (congrArg Prod.fst hw) (by simp)
  rw [if_neg h4] at hw
  by_cases h5 : (lit ("archive")).isPrefixOf p
  · rw [if_pos h5] at hw; exact absurd (congrArg Prod.fst hw) (by simp)
  rw [if_neg h5] at hw
  have hfs2 : fs2 = ⟨setFile fs.files (p ++ lit (".md")) (strip content),
      fs.dirs ++ ancestorDirs p⟩ := by
    have := congrArg Prod.snd hw
    simpa using this.symm
  unfold read_memory_file
  rw [← hp, if_neg h1, if_neg h2]
  rw [hfs2] at hdir ⊢
  simp only [hdir, Bool.false_eq_true, if_false, ne_eq, not_true_eq_false,
    not_false_eq_true]
  rw [file?_setFile]
  exact strip_idem content

/-- Witness for C8's amended theorem at a concrete write/read pair. -/
theorem write_then_read_roundtrip_witness :
    read_memory_file (lit ("notes/a"))
      (write_memory_file (lit ("notes/a")) (lit (" hi ")) ⟨[], []⟩).2
      = strip (lit (" hi ")) :=
  write_then_read_roundtrip (lit ("notes/a")) (lit (" hi ")) ⟨[], []⟩
    (write_memory_file (lit ("notes/a")) (lit (" hi ")) ⟨[], []⟩).2
    (lit ("notes/a.md")) (by rfl) (by rfl)

-- ---------------------------------------------------------------------------
-- memory.py: the observations append-only log (lines 29-678)
--
-- Regex-to-model correspondence.  The source splits the file with
-- `re.split(r'^---\s*$', content, flags=re.MULTILINE)` and then strips
-- every chunk.  A `^---\s*$` match always starts at a line beginning
-- with `---` whose remaining characters on that line are whitespace;
-- `\s*` may additionally swallow whole blank lines before the final
-- `$`, but since every chunk is passed through `.strip()` the result
-- is exactly: split the line list at separator lines (a line = `---`
-- followed only by whitespace), then strip each chunk.  The model
-- splits at the line level accordingly.
-- ---------------------------------------------------------------------------

def OBSERVATIONS_TOKEN_THRESHOLD : Nat := 800
def OBSERVATIONS_MAX_ENTRIES : Nat := 20
def OBSERVATIONS_KEEP_RECENT : Nat := 10
def OBSERVATIONS_CONTEXT_MAX_TOKENS : Nat := 400

def DEFAULT_OBSERVATIONS_CONTENT : Str :=
  lit ("# Observations\n\nNothing yet. Paying attention.\n")

/-- `_is_default_observations` (memory.py 283-286). -/
def _is_default_observations (content : Str) : Bool :=
  (strip content == ([] : Str))
    || (strip content == strip DEFAULT_OBSERVATIONS_CONTENT)

/-- A line matched by `^---\s*$`. -/
def isSepLine (l : Str) : Bool :=
  (lit ("---")).isPrefixOf l && (l.drop 3).all isWS

/-- `_has_structured_entries` (memory.py 289-291):
`re.search(r'^---\s*$', content, re.MULTILINE)`. -/
def _has_structured_entries (content : Str) : Bool :=
  (splitLines content).any isSepLine

/-- Decimal digit (regex `\d` on the ASCII timestamps used here). -/
def isDig (c : Char) : Bool := ('0' ≤ c) && (c ≤ '9')

/-- Consume exactly `n` digits. -/
def takeDigits (n : Nat) (s : Str) : Option (Str × Str) :=
  if (s.take n).length = n && (s.take n).all isDig then
    some (s.take n, s.drop n)
  else none

def expectChar (c : Char) (s : Str) : Option Str :=
  match s with
  | x :: rest => if x = c then some rest else none
  | [] => none

/-- The anchored timestamp regex
`\[(\d{4}-\d{2}-\d{2}\s+\d{2}:\d{2})\]` (memory.py 348, also the
anchored `re.match` used at lines 366 and 486).  `\s+` is greedy over
whitespace; taking the maximal whitespace run is equivalent to the
regex's backtracking because the character after any shorter run is
again whitespace, never the digit the pattern then requires. -/
def tsCapture (s : Str) : Option Str := do
  let r0 ← expectChar '[' s
  let (y, r1) ← takeDigits 4 r0
  let r2 ← expectChar '-' r1
  let (mo, r3) ← takeDigits 2 r2
  let r4 ← expectChar '-' r3
  let (d, r5) ← takeDigits 2 r4
  let ws := r5.takeWhile isWS
  if ws = [] then none
  else
    let r6 := r5.drop ws.length
    let (hh, r7) ← takeDigits 2 r6
    let r8 ← expectChar ':' r7
    let (mi, r9) ← takeDigits 2 r8
    let _ ← expectChar ']' r9
    some (y ++ '-' :: mo ++ '-' :: d ++ ws ++ hh ++ ':' :: mi)

/-- First index `k ≥ i` with `rem[k] = ']'`. -/
def findBracketFrom (rem : Str) (i : Nat) : Option Nat :=
  ((rem.drop i).findIdx? (fun c => c = ']')).map (fun k => i + k)

/-- Index of the last `]` in `rem`. -/
def lastBracket (rem : Str) : Option Nat :=
  (rem.reverse.findIdx? (fun c => c = ']')).map (fun k => rem.length - 1 - k)

/-- The resolution-marker regex `^\[resolved:\s*(.+?)\]` (memory.py 349),
applied to one line.  Match semantics (backtracking): the engine first
takes the maximal whitespace run `w` for the greedy `\s*`, then the lazy
`(.+?)` stops at the first `]` strictly after at least one character;
if no `]` exists past the whitespace run it backtracks `\s*` downwards,
which succeeds exactly when some `]` sits at index ≥ 1 of the remainder
(the run chars are matched by `.` instead).  The first successful `\s*`
length is `min w (lastBracket - 1)`. -/
def resolvedLineCapture (l : Str) : Option Str :=
  match (lit ("[resolved:")).isPrefixOf? l with
  | none => none
  | some rem =>
    let w := (rem.takeWhile isWS).length
    match findBracketFrom rem (w + 1) with
    | some k => some ((rem.drop w).take (k - w))
    | none =>
      match lastBracket rem with
      | some lb =>
        if 1 ≤ lb then some ((rem.drop (lb - 1)).take 1) else none
      | none => none

/-- One parsed observation entry (memory.py 373-378). -/
structure ObsEntry where
  timestamp : Option Str
  text : Str
  resolved : Option Str
  raw : Str
deriving DecidableEq, Repr, Inhabited

/-- Build the entry record from a stripped chunk (memory.py 356-378).
`timestamp_re.match(chunk)`; `resolved_re.search(chunk)` with
`re.MULTILINE` finds the first line that matches; the clean text drops
every line matching either anchored pattern. -/
def mkObsEntry (raw : Str) : ObsEntry :=
  let ls := splitLines raw
  { timestamp := tsCapture raw
    resolved := (ls.filterMap resolvedLineCapture).head?
    text := strip (unlines (ls.filter
      (fun l => (tsCapture l).isNone && (resolvedLineCapture l).isNone)))
    raw := raw }

/-- Does the summary-block regex
`## Summarized observations \(through \d{4}-\d{2}-\d{2}\).*` (DOTALL)
match at the start of `s`?  The trailing `.*` with DOTALL always
matches the rest of the string. -/
def summaryPatAt (s : Str) : Bool :=
  (do
    let r ← (lit ("## Summarized observations (through ")).isPrefixOf? s
    let (_, r1) ← takeDigits 4 r
    let r2 ← expectChar '-' r1
    let (_, r3) ← takeDigits 2 r2
    let r4 ← expectChar '-' r3
    let (_, r5) ← takeDigits 2 r4
    let _ ← expectChar ')' r5
    some ()).isSome

/-- `re.search` of the summary pattern: leftmost match position. -/
def findSummaryStart (s : Str) : Option Nat :=
  (List.range (s.length + 1)).find? (fun i => summaryPatAt (s.drop i))

/-- Summary block = `match.group(0).strip()`: from the leftmost match
position to the end of the (already stripped) header. -/
def extractSummaryBlock (header : Str) : Option Str :=
  (findSummaryStart header).map (fun i => strip (header.drop i))

structure ObsParsed where
  header : Str
  summary_block : Option Str
  entries : List ObsEntry
deriving DecidableEq, Repr

/-- `_parse_observation_entries` (memory.py 309-380). -/
def _parse_observation_entries (content : Str) : ObsParsed :=
  if strip content = [] then
    { header := lit ("# Observations"), summary_block := none, entries := [] }
  else
    let chunks := (splitLines content).splitOnP isSepLine
    let header := strip (unlines chunks.headI)
    let entryChunks :=
      (chunks.tail.map (fun g => strip (unlines g))).filter (fun c => c ≠ [])
    { header := header
      summary_block := extractSummaryBlock header
      entries := entryChunks.map mkObsEntry }

-- ---------------------------------------------------------------------------
-- memory.py: observation operations
-- ---------------------------------------------------------------------------

/-- `\[?\d{4}-` tail of the multi-entry regex. -/
def bracketYearDash (r3 : Str) : Bool :=
  let r4 := match r3 with
    | '[' :: t => t
    | _ => r3
  match takeDigits 4 r4 with
  | some (_, r5) =>
    match r5 with
    | '-' :: _ => true
    | _ => false
  | none => false

/-- Does `---\s*\n\s*\[?\d{4}-` match at the start of `s`?  The chosen
`\n` must lie inside the whitespace run following `---` (the characters
before it are `\s`), and the second `\s*` stops somewhere inside the
following whitespace run. -/
def multiEntryPatAt (s : Str) : Bool :=
  match (lit ("---")).isPrefixOf? s with
  | none => false
  | some r =>
    let m1 := (r.takeWhile isWS).length
    (List.range m1).any (fun j =>
      if r.getD j ' ' = '\n' then
        let r2 := r.drop (j + 1)
        let m2 := (r2.takeWhile isWS).length
        (List.range (m2 + 1)).any (fun k => bracketYearDash (r2.drop k))
      else false)

/-- `re.search(r'---\s*\n\s*\[?\d{4}-', observation)` (memory.py 401). -/
def multiEntryPat (s : Str) : Bool :=
  (List.range (s.length + 1)).any (fun i => multiEntryPatAt (s.drop i))

inductive ObsErr
  | observationRequired -- "observation is required"
  | fullRewrite         -- "Pass only the observation text, not a full file rewrite. ..."
  | multiEntry          -- "Pass only a single observation. ..."
deriving DecidableEq, Repr

inductive ObsWrite
  | ok (entries : Nat) (tokens : Nat)
  | err (e : ObsErr)
deriving DecidableEq, Repr

/-- The scan of `_extract_legacy_content` (memory.py 294-306): advance
past leading heading lines, and past blank lines while nothing else has
been seen. -/
def legacyStartAux (i start : Nat) : List Str → Nat
  | [] => start
  | l :: rest =>
    if (lit ("# ")).isPrefixOf (strip l) then legacyStartAux (i + 1) (i + 1) rest
    else if (strip l == ([] : Str)) && (start == i) then
      legacyStartAux (i + 1) (i + 1) rest
    else start

def _extract_legacy_content (content : Str) : Str :=
  let lines := splitLines (strip content)
  strip (unlines (lines.drop (legacyStartAux 0 0 lines)))

/-- `update_observations` (memory.py 383-438) as a transformation of the
observations-file content.  `datetime.now()` is the `ts` argument
(format `%Y-%m-%d %H:%M`; `ts.take 10` is its `%Y-%m-%d` date). -/
def update_observations (observation : Str) (ts : Str) (existing : Str) :
    ObsWrite × Str :=
  if strip observation = [] then (ObsWrite.err ObsErr.observationRequired, existing)
  else
    let obs := strip observation
    if (lit ("# ")).isPrefixOf (lstrip obs) then
      (ObsWrite.err ObsErr.fullRewrite, existing)
    else if multiEntryPat obs then (ObsWrite.err ObsErr.multiEntry, existing)
    else
      let new_entry := '\n' :: (lit ("---\n[") ++ ts ++ lit ("]\n") ++ obs ++ ['\n'])
      let content :=
        if _is_default_observations existing then
          lit ("# Observations\n") ++ new_entry
        else if strip existing ≠ [] && !(_has_structured_entries existing) then
          lit ("# Observations\n\n## Summarized observations (through ")
            ++ ts.take 10 ++ lit (")\n") ++ _extract_legacy_content existing
            ++ '\n' :: new_entry
        else rstrip existing ++ new_entry
      (ObsWrite.ok (_parse_observation_entries content).entries.length
        (estimate_tokens content), content)

/-- The greedy newest-to-oldest budget walk of
`read_observations_for_context` (memory.py 538-546); input is the
reversed candidate list, output is in processing order (the source
builds the same selection with `selected.insert(0, entry)` and breaks at
the first entry that would overflow). -/
def pickGreedy (budget : Int) : List ObsEntry → List ObsEntry
  | [] => []
  | e :: rest =>
    let t : Int := estimate_tokens (lit ("\n\n---\n") ++ e.raw)
    if 0 ≤ budget - t then e :: pickGreedy (budget - t) rest else []

/-- `read_observations_for_context` (memory.py 502-552), parameterized
by the configured budget (`OBSERVATIONS_CONTEXT_MAX_TOKENS = 400`). -/
def read_observations_for_context (fileContent : Str) (maxTokens : Nat) : Str :=
  let content := strip fileContent
  if content = [] || _is_default_observations content then content
  else
    let parsed := _parse_observation_entries content
    let base :=
      match parsed.summary_block with
      | some sb => lit ("# Observations") ++ '\n' :: '\n' :: sb
      | none => lit ("# Observations")
    let active := parsed.entries.filter (fun e => e.resolved.isNone)
    let candidates := active.drop (active.length - OBSERVATIONS_KEEP_RECENT)
    let budget : Int := (maxTokens : Int) - (estimate_tokens base : Int)
    let selected := (pickGreedy budget candidates.reverse).reverse
    base ++ selected.flatMap (fun e => lit ("\n\n---\n") ++ e.raw)

structure PrepResult where
  old_entries_text : Str
  recent_entries : List ObsEntry
  current_summary : Option Str
  full_content : Str
deriving DecidableEq, Repr

/-- `prepare_observations_for_consolidation` (memory.py 584-623) on the
existing file content. -/
def prepare_observations_for_consolidation (full_content : Str) :
    Option PrepResult :=
  let parsed := _parse_observation_entries full_content
  if parsed.entries.length ≤ OBSERVATIONS_KEEP_RECENT then none
  else
    let recent := parsed.entries.drop
      (parsed.entries.length - OBSERVATIONS_KEEP_RECENT)
    let old := parsed.entries.take
      (parsed.entries.length - OBSERVATIONS_KEEP_RECENT)
    if old = [] then none
    else
      some
        { old_entries_text :=
            List.intercalate (lit ("\n\n"))
              (old.map (fun e => lit ("---\n") ++ e.raw))
          recent_entries := recent
          current_summary := parsed.summary_block
          full_content := full_content }

structure ConsolidateResult where
  entries_kept : Nat
  tokens : Nat
  new_observations : Str
  new_archive : Str
deriving DecidableEq, Repr

/-- `write_consolidated_observations` (memory.py 626-678): archive the
full pre-compression content under a dated session marker, then rebuild
the live file as header + summary block + retained entries.  `archive`
is the current archive file content (`none` if the file is absent);
`today` is `datetime.now().strftime("%Y-%m-%d")`. -/
def write_consolidated_observations (summary : Str) (recent : List ObsEntry)
    (full_content_for_archive : Str) (archive : Option Str) (today : Str) :
    ConsolidateResult :=
  let existing_archive :=
    match archive with
    | some a => a
    | none =>
      lit ("# Observations Archive\n\nFull observation history, preserved during consolidation.\n")
  let new_archive := rstrip existing_archive
    ++ lit ("\n\n---\n## Session: ") ++ today ++ lit ("\n\n")
    ++ strip full_content_for_archive ++ ['\n']
  let new_content := lit ("# Observations\n\n## Summarized observations (through ")
    ++ today ++ lit (")\n") ++ strip summary
    ++ recent.flatMap (fun e => lit ("\n---\n") ++ e.raw) ++ ['\n']
  { entries_kept := recent.length
    tokens := estimate_tokens new_content
    new_observations := new_content
    new_archive := new_archive }

-- ---------------------------------------------------------------------------
-- Claim C4: what append does to the bytes of an existing structured file
-- ---------------------------------------------------------------------------

theorem rstrip_decomp (s : Str) :
    s = rstrip s ++ List.rtakeWhile isWS s
    ∧ (List.rtakeWhile isWS s).all isWS = true := by
  constructor
  · rw [rstrip_eq_rdropWhile]
    unfold List.rdropWhile List.rtakeWhile
    rw [← List.reverse_append, List.takeWhile_append_dropWhile, List.reverse_reverse]
  · rw [List.all_eq_true]
    intro x hx
    exact List.mem_rtakeWhile_imp hx

theorem strip_eq_nil_iff (s : Str) : strip s = [] ↔ s.all isWS = true := by
  constructor
  · intro h
    obtain ⟨hdec, hall⟩ := rstrip_decomp s
    have h2 : rstrip s = List.takeWhile isWS (rstrip s) ++ strip s := by
      conv_lhs => rw [← List.takeWhile_append_dropWhile isWS (rstrip s)]
      rfl
    rw [List.all_eq_true]
    intro x hx
    rw [hdec, h2, h] at hx
    simp only [List.append_nil, List.mem_append] at hx
    rcases hx with hx | hx
    · exact List.mem_takeWhile_imp hx
    · exact List.mem_rtakeWhile_imp hx
  · intro h
    rw [List.all_eq_true] at h
    have h1 : rstrip s = [] := by
      rw [rstrip_eq_rdropWhile, List.rdropWhile_eq_nil_iff]
      exact h
    show lstrip (rstrip s) = []
    rw [h1]
    rfl

/-- A file with structured entries is never in the default state: a
separator line starts with `-`, a character that occurs neither in
whitespace nor in the default seed text. -/
theorem structured_not_default (s : Str)
    (h : _has_structured_entries s = true) :
    _is_default_observations s = false := by
  unfold _has_structured_entries at h
  rw [List.any_eq_true] at h
  obtain ⟨l, hl, hsep⟩ := h
  have hdash_l : '-' ∈ l := by
    unfold isSepLine at hsep
    rw [Bool.and_eq_true, isPrefixOf_iff_append] at hsep
    obtain ⟨⟨t, ht⟩, _⟩ := hsep
    rw [ht]
    simp [lit]
  have hdash_s : '-' ∈ s := by
    obtain ⟨a, b, hab⟩ := (splitOnP_groups_within (· == '\n') s).2 l hl
    rw [hab]
    simp [hdash_l]
  by_contra hdef
  rw [Bool.not_eq_false] at hdef
  unfold _is_default_observations at hdef
  rw [Bool.or_eq_true, beq_iff_eq, beq_iff_eq] at hdef
  obtain ⟨hdec, hall2⟩ := rstrip_decomp s
  have h2 : rstrip s = List.takeWhile isWS (rstrip s) ++ strip s := by
    conv_lhs => rw [← List.takeWhile_append_dropWhile isWS (rstrip s)]
    rfl
  rw [hdec, h2] at hdash_s
  simp only [List.mem_append] at hdash_s
  rcases hdash_s with (hd | hd) | hd
  · exact absurd (List.mem_takeWhile_imp hd) (by decide)
  · rcases hdef with hdef | hdef
    · rw [hdef] at hd; simp at hd
    · rw [hdef] at hd
      revert hd
      decide
  · exact absurd (List.mem_rtakeWhile_imp hd) (by decide)

/-- **C4, counterexample**: for an observations file with structured
entries that ends in a blank line, an accepted append does NOT leave
every pre-existing byte unchanged and does not produce
`existing + "\n---\n[<now>]\n<text>\n"`: the code first strips ALL
trailing whitespace (`existing.rstrip()`), deleting the blank line. -/
theorem update_observations_not_pure_append :
    (update_observations (lit ("bar")) (lit ("2025-01-02 11:00"))
        (lit ("# Observations\n\n---\n[2025-01-01 10:00]\nfoo\n\n"))).1
      = ObsWrite.ok 2 18
    ∧ (update_observations (lit ("bar")) (lit ("2025-01-02 11:00"))
        (lit ("# Observations\n\n---\n[2025-01-01 10:00]\nfoo\n\n"))).2
      ≠ lit ("# Observations\n\n---\n[2025-01-01 10:00]\nfoo\n\n")
        ++ lit ("\n---\n[2025-01-02 11:00]\nbar\n")
    ∧ (lit ("# Observations\n\n---\n[2025-01-01 10:00]\nfoo\n\n")).isPrefixOf
        (update_observations (lit ("bar")) (lit ("2025-01-02 11:00"))
          (lit ("# Observations\n\n---\n[2025-01-01 10:00]\nfoo\n\n"))).2
      = false := by
  refine ⟨by decide, by decide, by decide⟩

/-- **C4, amended**: on a file that already holds structured entries, an
accepted append first removes the trailing whitespace of the existing
content and then appends `\n---\n[<now>]\n<text>\n`; every byte before
that trailing-whitespace run is unchanged (the existing content is
`rstrip(existing)` plus whitespace). In particular, when the file ends
in exactly one newline — as every file produced by the append path
itself does — the pre-existing content survives byte-for-byte as a
prefix and the bytes added after it are `---\n[<now>]\n<text>\n`. -/
theorem update_observations_append_shape (existing ts text : Str)
    (hstruct : _has_structured_entries existing = true)
    (hne : strip text ≠ [])
    (hhead : (lit ("# ")).isPrefixOf (lstrip (strip text)) = false)
    (hmulti : multiEntryPat (strip text) = false) :
    (update_observations text ts existing).2
        = rstrip existing
          ++ '\n' :: (lit ("---\n[") ++ ts ++ lit ("]\n") ++ strip text ++ ['\n'])
    ∧ (update_observations text ts existing).1
        = ObsWrite.ok
            (_parse_observation_entries ((update_observations text ts existing).2)).entries.length
            (estimate_tokens ((update_observations text ts existing).2))
    ∧ existing = rstrip existing ++ List.rtakeWhile isWS existing
    ∧ (List.rtakeWhile isWS existing).all isWS = true
    ∧ (rstrip existing ++ ['\n'] = existing →
        (update_observations text ts existing).2
          = existing ++ (lit ("---\n[") ++ ts ++ lit ("]\n") ++ strip text ++ ['\n'])) := by
  have hdef := structured_not_default existing hstruct
  have hbranch : (strip existing ≠ [] && !(_has_structured_entries existing)) = false := by
    rw [hstruct]
    simp
  constructor
  · unfold update_observations
    rw [if_neg hne, if_neg (by simp [hhead]), if_neg (by simp [hmulti])]
    simp only [hdef, Bool.false_eq_true, if_false, hbranch]
  constructor
  · unfold update_observations
    rw [if_neg hne, if_neg (by simp [hhead]), if_neg (by simp [hmulti])]
  refine ⟨(rstrip_decomp existing).1, (rstrip_decomp existing).2, ?_⟩
  intro hone
  have hcollapse : rstrip (rstrip existing ++ ['\n']) = rstrip existing := by
    rw [rstrip_eq_rdropWhile,
      List.rdropWhile_concat_pos isWS (rstrip existing) '\n' (by decide),
      ← rstrip_eq_rdropWhile]
    exact rstrip_rstrip existing
  unfold update_observations
  rw [if_neg hne, if_neg (by simp [hhead]), if_neg (by simp [hmulti])]
  simp only [hdef, Bool.false_eq_true, if_false, hbranch]
  rw [← hone, hcollapse]
  simp

/-- Witness for C4's amended theorem on a file ending in one newline. -/
theorem update_observations_append_shape_witness :
    (update_observations (lit ("bar")) (lit ("2025-01-02 11:00"))
        (lit ("# Observations\n\n---\n[2025-01-01 10:00]\nfoo\n"))).2
      = lit ("# Observations\n\n---\n[2025-01-01 10:00]\nfoo\n")
        ++ (lit ("---\n[") ++ lit ("2025-01-02 11:00") ++ lit ("]\n")
            ++ strip (lit ("bar")) ++ ['\n']) :=
  (update_observations_append_shape
    (lit ("# Observations\n\n---\n[2025-01-01 10:00]\nfoo\n"))
    (lit ("2025-01-02 11:00")) (lit ("bar"))
    (by decide) (by decide) (by decide) (by decide)).2.2.2.2 (by decide)

-- ---------------------------------------------------------------------------
-- Canonical observation files.  `update_observations` and
-- `write_consolidated_observations` only ever produce files of the
-- following shape: header lines, then blocks, each introduced by a
-- `---` separator line (with or without a preceding blank line), plus a
-- final newline.  The master lemma below computes
-- `_parse_observation_entries` on this family.
-- ---------------------------------------------------------------------------

theorem isDig_ne (c d : Char) (h : isDig c = true) (hd : isDig d = false) :
    c ≠ d := by
  intro hcd
  rw [hcd, hd] at h
  exact absurd h (by simp)

theorem strip_append_nl (s : Str) : strip (s ++ ['\n']) = strip s := by
  show lstrip (rstrip (s ++ ['\n'])) = lstrip (rstrip s)
  rw [rstrip_eq_rdropWhile, List.rdropWhile_concat_pos isWS s '\n' (by decide),
    ← rstrip_eq_rdropWhile]

theorem strip_eq_self_parts (s : Str) (h : strip s = s) :
    rstrip s = s ∧ lstrip s = s := by
  have hr : rstrip s = s := by
    have h1 : (strip s).length ≤ (rstrip s).length := by
      show (lstrip (rstrip s)).length ≤ (rstrip s).length
      exact ( List.dropWhile_suffix isWS ).length_le
    have h2 : (rstrip s).length ≤ s.length := by
      rw [rstrip_eq_rdropWhile]
      exact ( List.rdropWhile_prefix isWS s ).length_le
    have h3 : (strip s).length = s.length := by rw [h]
    have h4 : (rstrip s).length = s.length := by omega
    rw [rstrip_eq_rdropWhile] at h4 ⊢
    exact ( List.rdropWhile_prefix isWS s ).eq_of_length h4
  refine ⟨hr, ?_⟩
  have := h
  unfold strip at this
  rw [hr] at this
  exact this

/-- The block layout of the canonical observation files: an optional
blank line, the `---` separator, then the body lines of the entry. -/
def blockLines (b : Bool × List Str) : List Str :=
  (if b.1 then [([] : Str)] else []) ++ lit ("---") :: b.2

/-- A canonical observations file: header lines, entry blocks, and the
final newline every writer of the file leaves behind. -/
def obsContent (hdr : List Str) (blocks : List (Bool × List Str)) : Str :=
  unlines (hdr ++ blocks.flatMap blockLines ++ [[]])

/-- The groups `re.split(r'^---\s*$', ...)` produces on a canonical
file: the chunk before each separator, with any blank line attached to
the preceding chunk. -/
def buildGroups (pre : List Str) : List (Bool × List Str) → List (List Str)
  | [] => [pre ++ [[]]]
  | b :: rest => (pre ++ (if b.1 then [([] : Str)] else [])) :: buildGroups b.2 rest

/-- Well-formedness of one entry body: newline-free lines, no line that
the splitter would take for a separator, already-stripped non-empty
joined text. -/
structure CoreWF (core : List Str) : Prop where
  no_nl : ∀ l ∈ core, '\n' ∉ l
  no_sep : ∀ l ∈ core, isSepLine l = false
  trimmed : strip (unlines core) = unlines core
  ne : unlines core ≠ []

/-- Well-formedness of the header lines. -/
structure HdrWF (hdr : List Str) : Prop where
  ne : hdr ≠ []
  no_nl : ∀ l ∈ hdr, '\n' ∉ l
  no_sep : ∀ l ∈ hdr, isSepLine l = false
  ne_strip : strip (unlines hdr) ≠ []

theorem isSepLine_nil : isSepLine ([] : Str) = false := by decide

theorem splitOnP_buildGroups (pre : List Str) (blocks : List (Bool × List Str))
    (hpre : ∀ l ∈ pre, isSepLine l = false)
    (hb : ∀ b ∈ blocks, ∀ l ∈ b.2, isSepLine l = false) :
    (pre ++ blocks.flatMap blockLines ++ [[]]).splitOnP isSepLine
      = buildGroups pre blocks := by
  induction blocks generalizing pre with
  | nil =>
    simp only [List.flatMap_nil, List.append_nil, buildGroups]
    apply List.splitOnP_eq_single
    intro x hx
    simp only [List.mem_append, List.mem_singleton] at hx
    rcases hx with hx | hx
    · simp [hpre x hx]
    · subst hx; simp [isSepLine_nil]
  | cons b rest ih =>
    have hshape :
        pre ++ (b :: rest).flatMap blockLines ++ [([] : Str)]
          = (pre ++ (if b.1 then [([] : Str)] else []))
            ++ lit ("---") :: (b.2 ++ rest.flatMap blockLines ++ [[]]) := by
      simp only [List.flatMap_cons, blockLines, List.append_assoc, List.cons_append]
    rw [hshape]
    rw [List.splitOnP_first isSepLine _
      (fun x hx => by
        simp only [List.mem_append] at hx
        rcases hx with hx | hx
        · simp [hpre x hx]
        · split at hx
          · simp only [List.mem_singleton] at hx
            subst hx; simp [isSepLine_nil]
          · simp at hx)
      (lit ("---")) (by decide) _]
    rw [ih b.2 (fun l hl => hb b (List.mem_cons_self b rest) l hl)
      (fun b2 hb2 => hb b2 (List.mem_cons_of_mem b hb2))]
    simp [buildGroups]

theorem ne_nil_of_unlines_ne (core : List Str) (h : unlines core ≠ []) :
    core ≠ [] := by
  intro hc
  subst hc
  exact h rfl

theorem strip_unlines_append_blank (xs : List Str) (hxs : xs ≠ []) :
    strip (unlines (xs ++ [[]])) = strip (unlines xs) := by
  rw [unlines_append xs [[]] hxs (by simp), unlines_single]
  exact strip_append_nl (unlines xs)

theorem chunks_of_buildGroups (core : List Str) (blocks : List (Bool × List Str))
    (hcore : strip (unlines core) = unlines core ∧ unlines core ≠ [])
    (hb : ∀ b ∈ blocks, strip (unlines b.2) = unlines b.2 ∧ unlines b.2 ≠ []) :
    ((buildGroups core blocks).map (fun g => strip (unlines g))).filter
        (fun c => c ≠ [])
      = unlines core :: blocks.map (fun b => unlines b.2) := by
  induction blocks generalizing core with
  | nil =>
    have heq : strip (unlines (core ++ [[]])) = unlines core := by
      rw [strip_unlines_append_blank core (ne_nil_of_unlines_ne core hcore.2)]
      exact hcore.1
    simp only [buildGroups, List.map_cons, List.map_nil, List.filter, heq]
    simp [hcore.2]
  | cons b rest ih =>
    have hhead : strip (unlines (core ++ if b.1 then [([] : Str)] else []))
        = unlines core := by
      by_cases hb1 : b.1
      · rw [if_pos hb1,
          strip_unlines_append_blank core (ne_nil_of_unlines_ne core hcore.2)]
        exact hcore.1
      · rw [if_neg hb1]
        simp only [List.append_nil]
        exact hcore.1
    have hih := ih b.2 (hb b (List.mem_cons_self b rest))
      (fun b2 hb2 => hb b2 (List.mem_cons_of_mem b hb2))
    simp only [buildGroups, List.map_cons, List.filter, hhead, hih]
    simp [hcore.2]

/-- Master lemma: parsing a canonical observations file yields the
header's strip, the summary found in it, and one entry per block. -/
theorem parse_obsContent (hdr : List Str) (blocks : List (Bool × List Str))
    (hh : HdrWF hdr) (hb : ∀ b ∈ blocks, CoreWF b.2) :
    _parse_observation_entries (obsContent hdr blocks)
      = { header := strip (unlines hdr)
          summary_block := extractSummaryBlock (strip (unlines hdr))
          entries := blocks.map (fun b => mkObsEntry (unlines b.2)) } := by
  have hlines : splitLines (obsContent hdr blocks)
      = hdr ++ blocks.flatMap blockLines ++ [[]] := by
    unfold obsContent
    apply splitLines_unlines
    · simp [hh.ne]
    · intro l hl
      simp only [List.mem_append, List.mem_singleton] at hl
      rcases hl with (hl | hl) | hl
      · exact hh.no_nl l hl
      · rw [List.mem_flatMap] at hl
        obtain ⟨b, hbmem, hlb⟩ := hl
        unfold blockLines at hlb
        simp only [List.mem_append, List.mem_cons] at hlb
        rcases hlb with hlb | hlb | hlb
        · split at hlb
          · simp only [List.mem_singleton] at hlb
            subst hlb; simp
          · simp at hlb
        · subst hlb
          intro hc
          simp [lit] at hc
        · exact (hb b hbmem).no_nl l hlb
      · subst hl; simp
  have hstrip_ne : strip (obsContent hdr blocks) ≠ [] := by
    cases blocks with
    | nil =>
      unfold obsContent
      simp only [List.flatMap_nil, List.append_nil]
      rw [strip_unlines_append_blank hdr hh.ne]
      exact hh.ne_strip
    | cons b rest =>
      have hstruct : _has_structured_entries (obsContent hdr (b :: rest)) = true := by
        unfold _has_structured_entries
        rw [hlines, List.any_eq_true]
        refine ⟨lit ("---"), ?_, by decide⟩
        rw [List.mem_append]
        left
        rw [List.mem_append]
        right
        simp [blockLines]
      have hnd := structured_not_default _ hstruct
      unfold _is_default_observations at hnd
      rw [Bool.or_eq_false_iff] at hnd
      intro hc
      rw [hc] at hnd
      simp at hnd
  unfold _parse_observation_entries
  rw [if_neg hstrip_ne, hlines]
  rw [splitOnP_buildGroups hdr blocks hh.no_sep
    (fun b hbm l hl => (hb b hbm).no_sep l hl)]
  have hcorewf : ∀ b ∈ blocks, strip (unlines b.2) = unlines b.2 ∧ unlines b.2 ≠ [] :=
    fun b hbm => ⟨(hb b hbm).trimmed, (hb b hbm).ne⟩
  cases blocks with
  | nil =>
    simp only [buildGroups, List.headI, List.tail, List.map_nil]
    rw [strip_unlines_append_blank hdr hh.ne]
    simp
  | cons b rest =>
    simp only [buildGroups, List.headI, List.tail, List.map_cons]
    have hhead : strip (unlines (hdr ++ if b.1 then [([] : Str)] else []))
        = strip (unlines hdr) := by
      by_cases hb1 : b.1
      · rw [if_pos hb1]
        exact strip_unlines_append_blank hdr hh.ne
      · rw [if_neg hb1]
        simp
    rw [hhead]
    rw [chunks_of_buildGroups b.2 rest (hcorewf b (List.mem_cons_self b rest))
      (fun b2 hb2 => hcorewf b2 (List.mem_cons_of_mem b hb2))]
    simp

theorem rstrip_append (a b : Str) (hb : rstrip b ≠ []) :
    rstrip (a ++ b) = a ++ rstrip b := by
  have hne : b.reverse.dropWhile isWS ≠ [] := by
    intro hc
    apply hb
    show (b.reverse.dropWhile isWS).reverse = []
    rw [hc]
    rfl
  show ((a ++ b).reverse.dropWhile isWS).reverse = a ++ (b.reverse.dropWhile isWS).reverse
  rw [List.reverse_append, List.dropWhile_append]
  rw [if_neg (by simpa using hne)]
  rw [List.reverse_append, List.reverse_reverse]

theorem lstrip_cons_not_ws (c : Char) (x : Str) (h : isWS c = false) :
    lstrip (c :: x) = c :: x := by
  unfold lstrip
  rw [List.dropWhile_cons, if_neg (by simp [h])]

theorem splitLines_ne_nil (s : Str) : splitLines s ≠ [] :=
  List.splitOnP_ne_nil _ s

/-- One canonical entry: timestamp, optional resolution reason, body
text.  Its on-file body lines are `[<ts>]`, then (if resolved)
`[resolved: <reason>]`, then the text lines — exactly what
`update_observations` writes and what `resolve_observation` turns it
into. -/
structure ObsRow where
  ts : Str
  rres : Option Str
  text : Str
deriving DecidableEq, Repr

def rowCore (r : ObsRow) : List Str :=
  ('[' :: (r.ts ++ [']']))
    :: ((match r.rres with
        | some rs => [lit ("[resolved: ") ++ rs ++ [']']]
        | none => []) ++ splitLines r.text)

theorem blockLines_ne_nil (b : Bool × List Str) : blockLines b ≠ [] := by
  unfold blockLines
  cases b.1 <;> simp

theorem unlines_blockLines_decomp (b : Bool × List Str) (hbne : b.2 ≠ []) :
    ∃ C, unlines (blockLines b) = C ++ unlines b.2 := by
  unfold blockLines
  by_cases hb1 : b.1
  · rw [if_pos hb1]
    rw [show ([([] : Str)] ++ lit ("---") :: b.2)
        = ([([] : Str)] ++ [lit ("---")]) ++ b.2 by simp]
    rw [unlines_append _ _ (by simp) hbne]
    exact ⟨unlines ([([] : Str)] ++ [lit ("---")]) ++ ['\n'], by simp⟩
  · rw [if_neg hb1]
    simp only [List.nil_append]
    rw [show (lit ("---") :: b.2) = [lit ("---")] ++ b.2 by simp]
    rw [unlines_append _ _ (by simp) hbne]
    exact ⟨unlines [lit ("---")] ++ ['\n'], by simp⟩

theorem unlines_hdr_flat_decomp (hdr : List Str) (bs : List (Bool × List Str))
    (b : Bool × List Str) (hh : hdr ≠ []) (hbne : b.2 ≠ []) :
    ∃ C, unlines (hdr ++ (bs ++ [b]).flatMap blockLines)
      = C ++ unlines b.2 := by
  rw [List.flatMap_append]
  rw [show hdr ++ (bs.flatMap blockLines ++ [b].flatMap blockLines)
      = (hdr ++ bs.flatMap blockLines) ++ [b].flatMap blockLines by simp]
  simp only [List.flatMap_cons, List.flatMap_nil, List.append_nil]
  rw [unlines_append _ _ (by simp [hh]) (blockLines_ne_nil b)]
  obtain ⟨C, hC⟩ := unlines_blockLines_decomp b hbne
  rw [hC]
  exact ⟨unlines (hdr ++ bs.flatMap blockLines) ++ '\n' :: C, by simp⟩

theorem rstrip_obsContent (hdr : List Str) (blocks : List (Bool × List Str))
    (hh : hdr ≠ []) (hbne : blocks ≠ [])
    (hb : ∀ b ∈ blocks, strip (unlines b.2) = unlines b.2 ∧ unlines b.2 ≠ []) :
    rstrip (obsContent hdr blocks)
      = unlines (hdr ++ blocks.flatMap blockLines) := by
  rcases List.eq_nil_or_concat blocks with hnil | ⟨bs, b, hcat⟩
  · exact absurd hnil hbne
  rw [List.concat_eq_append] at hcat
  have hstep1 : obsContent hdr blocks
      = unlines (hdr ++ blocks.flatMap blockLines) ++ ['\n'] := by
    unfold obsContent
    rw [show hdr ++ blocks.flatMap blockLines ++ [([] : Str)]
        = (hdr ++ blocks.flatMap blockLines) ++ [([] : Str)] by simp]
    rw [unlines_append _ _ (by simp [hh]) (by simp), unlines_single]
  rw [hstep1, rstrip_eq_rdropWhile,
    List.rdropWhile_concat_pos isWS _ '\n' (by decide), ← rstrip_eq_rdropWhile]
  have hbmem : b ∈ blocks := by rw [hcat]; simp
  have hbody := hb b hbmem
  have hbody_ne : b.2 ≠ [] := ne_nil_of_unlines_ne b.2 hbody.2
  obtain ⟨C, hC⟩ := unlines_hdr_flat_decomp hdr bs b hh hbody_ne
  rw [hcat, hC]
  rw [rstrip_append C (unlines b.2) (by
    rw [(strip_eq_self_parts (unlines b.2) hbody.1).1]
    exact hbody.2)]
  rw [(strip_eq_self_parts (unlines b.2) hbody.1).1]

theorem unlines_cons (a : Str) (l : List Str) (h : l ≠ []) :
    unlines (a :: l) = a ++ '\n' :: unlines l := by
  cases l with
  | nil => exact absurd rfl h
  | cons x xs => exact unlines_cons_cons a x xs

theorem flat_entry_blocks (bs : List (Bool × List Str))
    (hne : ∀ b ∈ bs, unlines b.2 ≠ []) :
    '\n' :: unlines ((bs.map (fun b => (false, b.2))).flatMap blockLines ++ [[]])
      = bs.flatMap (fun b => lit ("\n---\n") ++ unlines b.2) ++ ['\n'] := by
  induction bs with
  | nil => simp [unlines_single]
  | cons b bs ih =>
    simp only [List.map_cons, List.flatMap_cons]
    rw [show blockLines (false, b.2) = lit ("---") :: b.2 from rfl]
    have hrest : (bs.map (fun b => (false, b.2))).flatMap blockLines ++ [[]] ≠ [] := by
      simp
    rw [show (lit ("---") :: b.2)
          ++ ((bs.map (fun b => (false, b.2))).flatMap blockLines) ++ [([] : Str)]
        = lit ("---") :: (b.2
          ++ ((bs.map (fun b => (false, b.2))).flatMap blockLines ++ [[]])) by simp]
    rw [unlines_cons _ _ (by
      intro hc
      rcases List.append_eq_nil.mp hc with ⟨h1, h2⟩
      exact hrest h2)]
    rw [unlines_append b.2 _
      (by
        intro hc
        exact hne b (List.mem_cons_self b bs) (by rw [hc]; rfl)) hrest]
    have ih2 := ih (fun x hx => hne x (List.mem_cons_of_mem b hx))
    rw [ih2]
    rw [show lit ("\n---\n") = '\n' :: (lit ("---") ++ ['\n']) from by decide]
    simp

theorem strip_obsContent (c0 : Char) (h0 : Str) (hdrtail : List Str)
    (blocks : List (Bool × List Str)) (hc0 : isWS c0 = false) (hbne : blocks ≠ [])
    (hb : ∀ b ∈ blocks, strip (unlines b.2) = unlines b.2 ∧ unlines b.2 ≠ []) :
    strip (obsContent ((c0 :: h0) :: hdrtail) blocks)
      = unlines (((c0 :: h0) :: hdrtail) ++ blocks.flatMap blockLines) := by
  show lstrip (rstrip _) = _
  rw [rstrip_obsContent _ _ (by simp) hbne hb]
  have htail : hdrtail ++ blocks.flatMap blockLines ≠ [] := by
    intro hc
    rcases List.append_eq_nil.mp hc with ⟨h1, h2⟩
    obtain ⟨b0, bs, hbs⟩ : ∃ b0 bs, blocks = b0 :: bs := by
      cases blocks with
      | nil => exact absurd rfl hbne
      | cons x xs => exact ⟨x, xs, rfl⟩
    rw [hbs, List.flatMap_cons] at h2
    rcases List.append_eq_nil.mp h2 with ⟨h3, _⟩
    exact blockLines_ne_nil b0 h3
  have hshape : unlines (((c0 :: h0) :: hdrtail) ++ blocks.flatMap blockLines)
      = c0 :: (h0 ++ '\n' :: unlines (hdrtail ++ blocks.flatMap blockLines)) := by
    rw [List.cons_append, unlines_cons _ _ htail]
    simp
  rw [hshape, lstrip_cons_not_ws c0 _ hc0, ← hshape]

theorem consolidated_content_eq (today summary : Str) (K : List (Bool × List Str))
    (hK : ∀ b ∈ K, unlines b.2 ≠ []) :
    lit ("# Observations\n\n## Summarized observations (through ")
      ++ today ++ lit (")\n") ++ strip summary
      ++ K.flatMap (fun b => lit ("\n---\n") ++ unlines b.2) ++ ['\n']
    = obsContent
        (lit ("# Observations") :: ([] : Str)
          :: (lit ("## Summarized observations (through ") ++ today ++ [')'])
          :: splitLines (strip summary))
        (K.map (fun b => (false, b.2))) := by
  unfold obsContent
  rw [show (lit ("# Observations") :: ([] : Str)
        :: (lit ("## Summarized observations (through ") ++ today ++ [')'])
        :: splitLines (strip summary))
        ++ (K.map (fun b => (false, b.2))).flatMap blockLines ++ [([] : Str)]
      = lit ("# Observations") :: ([] : Str)
        :: ((lit ("## Summarized observations (through ") ++ today ++ [')'])
          :: (splitLines (strip summary)
            ++ ((K.map (fun b => (false, b.2))).flatMap blockLines ++ [[]])))
      from by simp]
  rw [unlines_cons _ _ (by simp)]
  rw [unlines_cons _ _ (by simp)]
  rw [unlines_cons _ _ (by
    intro hc
    rcases List.append_eq_nil.mp hc with ⟨h1, h2⟩
    simp at h2)]
  rw [unlines_append (splitLines (strip summary)) _
    (splitLines_ne_nil _) (by simp)]
  rw [unlines_splitLines]
  rw [flat_entry_blocks K hK]
  rw [show lit ("# Observations\n\n## Summarized observations (through ")
      = lit ("# Observations")
        ++ '\n' :: ('\n' :: lit ("## Summarized observations (through "))
    from by decide]
  rw [show lit (")\n") = ')' :: '\n' :: ([] : Str) from by decide]
  simp

theorem isSepLine_hash (x : Str) : isSepLine ('#' :: x) = false := by
  unfold isSepLine
  rw [show lit ("---") = '-' :: '-' :: '-' :: [] from by decide]
  simp [List.isPrefixOf]

theorem hdrWF_consolidated (today summary : Str) (htoday : '\n' ∉ today)
    (hsum_ns : ∀ l ∈ splitLines (strip summary), isSepLine l = false) :
    HdrWF (lit ("# Observations") :: ([] : Str)
      :: (lit ("## Summarized observations (through ") ++ today ++ [')'])
      :: splitLines (strip summary)) := by
  refine ⟨by simp, ?_, ?_, ?_⟩
  · intro l hl
    rcases List.mem_cons.mp hl with hl | hl
    · subst hl; decide
    rcases List.mem_cons.mp hl with hl | hl
    · subst hl; simp
    rcases List.mem_cons.mp hl with hl | hl
    · subst hl
      intro hc
      rcases List.mem_append.mp hc with hc | hc
      · rcases List.mem_append.mp hc with hc | hc
        · exact absurd hc (by decide)
        · exact htoday hc
      · simp at hc
    · exact lines_mem_no_newline _ l hl
  · intro l hl
    rcases List.mem_cons.mp hl with hl | hl
    · subst hl; decide
    rcases List.mem_cons.mp hl with hl | hl
    · subst hl; exact isSepLine_nil
    rcases List.mem_cons.mp hl with hl | hl
    · subst hl
      rw [show lit ("## Summarized observations (through ")
          = '#' :: lit ("# Summarized observations (through ") from by decide]
      rw [List.cons_append, List.cons_append]
      exact isSepLine_hash _
    · exact hsum_ns l hl
  · intro hc
    have hsh : unlines (lit ("# Observations") :: ([] : Str)
        :: (lit ("## Summarized observations (through ") ++ today ++ [')'])
        :: splitLines (strip summary))
        = '#' :: (lit (" Observations")
          ++ '\n' :: unlines (([] : Str)
            :: (lit ("## Summarized observations (through ") ++ today ++ [')'])
            :: splitLines (strip summary))) := by
      rw [unlines_cons _ _ (by simp)]
      rw [show lit ("# Observations") = '#' :: lit (" Observations") from by decide]
      simp
    rw [hsh, strip_eq_nil_iff, List.all_eq_true] at hc
    have := hc '#' (List.mem_cons_self _ _)
    exact absurd this (by decide)

theorem flatMap_map_raw (K : List (Bool × List Str)) :
    (K.map (fun b => mkObsEntry (unlines b.2))).flatMap
        (fun e => lit ("\n---\n") ++ e.raw)
      = K.flatMap (fun b => lit ("\n---\n") ++ unlines b.2) := by
  induction K with
  | nil => rfl
  | cons b bs ih =>
    simp only [List.map_cons, List.flatMap_cons, ih]
    rfl

/-- C6: a canonical observations file with more than
`OBSERVATIONS_KEEP_RECENT` (10) entries: `prepare` returns the payload
(carrying the full pre-commit content), and `commit` leaves a live file
parsing to exactly 10 entries while the archive contains the full
pre-commit file content verbatim as a substring. -/
theorem consolidation_keeps_recent_and_archives
    (c0 : Char) (h0 : Str) (hdrtail : List Str)
    (blocks : List (Bool × List Str))
    (summary : Str) (archive : Option Str) (today : Str)
    (hc0 : isWS c0 = false)
    (hh : HdrWF ((c0 :: h0) :: hdrtail))
    (hb : ∀ b ∈ blocks, CoreWF b.2)
    (hlen : OBSERVATIONS_KEEP_RECENT < blocks.length)
    (htoday : '\n' ∉ today)
    (hsum_ns : ∀ l ∈ splitLines (strip summary), isSepLine l = false) :
    ∃ p, prepare_observations_for_consolidation
        (obsContent ((c0 :: h0) :: hdrtail) blocks) = some p
      ∧ p.full_content = obsContent ((c0 :: h0) :: hdrtail) blocks
      ∧ (write_consolidated_observations summary p.recent_entries
          p.full_content archive today).entries_kept = OBSERVATIONS_KEEP_RECENT
      ∧ (_parse_observation_entries (write_consolidated_observations summary
          p.recent_entries p.full_content archive today).new_observations).entries.length
        = OBSERVATIONS_KEEP_RECENT
      ∧ containsSub (obsContent ((c0 :: h0) :: hdrtail) blocks)
          (write_consolidated_observations summary p.recent_entries
            p.full_content archive today).new_archive = true := by
  have h10 : OBSERVATIONS_KEEP_RECENT = 10 := rfl
  have hbne : blocks ≠ [] := by
    intro hx
    rw [hx] at hlen
    simp [h10] at hlen
  have hparse := parse_obsContent ((c0 :: h0) :: hdrtail) blocks hh hb
  have hcorewfs : ∀ b ∈ blocks, strip (unlines b.2) = unlines b.2 ∧ unlines b.2 ≠ [] :=
    fun b hbm => ⟨(hb b hbm).trimmed, (hb b hbm).ne⟩
  have hstripc : strip (obsContent ((c0 :: h0) :: hdrtail) blocks) ++ ['\n']
      = obsContent ((c0 :: h0) :: hdrtail) blocks := by
    rw [strip_obsContent c0 h0 hdrtail blocks hc0 hbne hcorewfs]
    show _ = unlines (((c0 :: h0) :: hdrtail) ++ blocks.flatMap blockLines ++ [[]])
    rw [unlines_append (((c0 :: h0) :: hdrtail) ++ blocks.flatMap blockLines) [[]]
      (by simp) (by simp), unlines_single]
  set K := blocks.drop (blocks.length - OBSERVATIONS_KEEP_RECENT) with hK
  have hKmem : ∀ b ∈ K, b ∈ blocks := by
    intro b hbm
    rw [hK] at hbm
    exact List.mem_of_mem_drop hbm
  have hKlen : K.length = OBSERVATIONS_KEEP_RECENT := by
    rw [hK, List.length_drop]
    omega
  have hrecent : ((blocks.map (fun b => mkObsEntry (unlines b.2))).drop
      ((blocks.map (fun b => mkObsEntry (unlines b.2))).length
        - OBSERVATIONS_KEEP_RECENT))
      = K.map (fun b => mkObsEntry (unlines b.2)) := by
    rw [hK, List.length_map, ← List.map_drop]
  have hold_ne : (blocks.map (fun b => mkObsEntry (unlines b.2))).take
      ((blocks.map (fun b => mkObsEntry (unlines b.2))).length
        - OBSERVATIONS_KEEP_RECENT) ≠ [] := by
    intro hx
    have := congrArg List.length hx
    simp only [List.length_take, List.length_map, List.length_nil] at this
    omega
  have hprep : prepare_observations_for_consolidation
      (obsContent ((c0 :: h0) :: hdrtail) blocks)
      = some
        { old_entries_text := List.intercalate (lit ("\n\n"))
            (((blocks.map (fun b => mkObsEntry (unlines b.2))).take
              ((blocks.map (fun b => mkObsEntry (unlines b.2))).length
                - OBSERVATIONS_KEEP_RECENT)).map
              (fun e => lit ("---\n") ++ e.raw))
          recent_entries := K.map (fun b => mkObsEntry (unlines b.2))
          current_summary := extractSummaryBlock
            (strip (unlines ((c0 :: h0) :: hdrtail)))
          full_content := obsContent ((c0 :: h0) :: hdrtail) blocks } := by
    simp only [prepare_observations_for_consolidation]
    rw [hparse]
    rw [if_neg (by
      simp only [List.length_map]
      omega)]
    rw [if_neg hold_ne]
    rw [hrecent]
  refine ⟨_, hprep, rfl, ?_, ?_, ?_⟩
  · show (K.map (fun b => mkObsEntry (unlines b.2))).length = _
    rw [List.length_map, hKlen]
  · show (_parse_observation_entries
        (lit ("# Observations\n\n## Summarized observations (through ")
          ++ today ++ lit (")\n") ++ strip summary
          ++ (K.map (fun b => mkObsEntry (unlines b.2))).flatMap
              (fun e => lit ("\n---\n") ++ e.raw)
          ++ ['\n'])).entries.length = OBSERVATIONS_KEEP_RECENT
    rw [flatMap_map_raw K]
    rw [consolidated_content_eq today summary K
      (fun b hbm => (hb b (hKmem b hbm)).ne)]
    rw [parse_obsContent _ _ (hdrWF_consolidated today summary htoday hsum_ns)
      (by
        intro b hbm
        rw [List.mem_map] at hbm
        obtain ⟨x, hx, hbx⟩ := hbm
        subst hbx
        exact hb x (hKmem x hx))]
    simp [hKlen]
  · show containsSub _ (rstrip (match archive with
        | some a => a
        | none => lit ("# Observations Archive\n\nFull observation history, preserved during consolidation.\n"))
      ++ lit ("\n\n---\n## Session: ") ++ today ++ lit ("\n\n")
      ++ strip (obsContent ((c0 :: h0) :: hdrtail) blocks) ++ ['\n']) = true
    rw [containsSub_iff]
    refine ⟨rstrip (match archive with
        | some a => a
        | none => lit ("# Observations Archive\n\nFull observation history, preserved during consolidation.\n"))
      ++ lit ("\n\n---\n## Session: ") ++ today ++ lit ("\n\n"), [], ?_⟩
    rw [List.append_nil, List.append_assoc, hstripc]

def c6row (d : Nat) : ObsRow :=
  ⟨lit ("2025-01-") ++ (if d < 10 then ['0'] else []) ++ (Nat.toDigits 10 d)
    ++ lit (" 10:00"), none, lit ("note") ++ Nat.toDigits 10 d⟩

def c6blocks : List (Bool × List Str) :=
  (true, rowCore (c6row 1))
    :: (List.range 10).map (fun i => (false, rowCore (c6row (i + 2))))

theorem consolidation_keeps_recent_and_archives_witness :
    ∃ p, prepare_observations_for_consolidation
        (obsContent (('#' :: lit (" Observations")) :: []) c6blocks) = some p
      ∧ p.full_content = obsContent (('#' :: lit (" Observations")) :: []) c6blocks
      ∧ (write_consolidated_observations (lit ("summarized stuff")) p.recent_entries
          p.full_content none (lit ("2025-02-01"))).entries_kept
        = OBSERVATIONS_KEEP_RECENT
      ∧ (_parse_observation_entries (write_consolidated_observations
          (lit ("summarized stuff")) p.recent_entries p.full_content none
          (lit ("2025-02-01"))).new_observations).entries.length
        = OBSERVATIONS_KEEP_RECENT
      ∧ containsSub (obsContent (('#' :: lit (" Observations")) :: []) c6blocks)
          (write_consolidated_observations (lit ("summarized stuff")) p.recent_entries
            p.full_content none (lit ("2025-02-01"))).new_archive = true :=
  consolidation_keeps_recent_and_archives '#' (lit (" Observations")) []
    c6blocks (lit ("summarized stuff")) none (lit ("2025-02-01"))
    (by decide)
    ⟨by simp, by decide, by decide, by decide⟩
    (by
      intro b hb
      fin_cases hb <;> exact ⟨by decide, by decide, by decide, by decide⟩)
    (by decide)
    (by decide)
    (by decide)

theorem pickGreedy_take (budget : Int) (l : List ObsEntry) :
    ∃ k, pickGreedy budget l = l.take k := by
  induction l generalizing budget with
  | nil => exact ⟨0, rfl⟩
  | cons e rest ih =>
    simp only [pickGreedy]
    by_cases hc : (0 : Int)
        ≤ budget - (estimate_tokens (lit ("\n\n---\n") ++ e.raw) : Int)
    · obtain ⟨k, hk⟩ := ih (budget - (estimate_tokens (lit ("\n\n---\n") ++ e.raw) : Int))
      refine ⟨k + 1, ?_⟩
      rw [if_pos hc, hk]
      rfl
    · exact ⟨0, by rw [if_neg hc]; rfl⟩

/-- C7: when the observations file is neither empty nor the default seed,
the context projection's output is the base block (header, plus the
summary block verbatim when one is present) followed by the raw texts of
a tail segment of the *active* (unresolved) entries only — so no resolved
entry is ever included — and whenever a summary block is present it
occurs verbatim in the output, for every token budget. -/
theorem read_for_context_excludes_resolved (fileContent : Str) (maxTokens : Nat)
    (hne : strip fileContent ≠ [])
    (hnd : _is_default_observations (strip fileContent) = false) :
    (∃ m, read_observations_for_context fileContent maxTokens
        = (match (_parse_observation_entries (strip fileContent)).summary_block with
           | some sb => lit ("# Observations") ++ '\n' :: '\n' :: sb
           | none => lit ("# Observations"))
          ++ (((_parse_observation_entries (strip fileContent)).entries.filter
              (fun e => e.resolved.isNone)).drop m).flatMap
            (fun e => lit ("\n\n---\n") ++ e.raw))
    ∧ (∀ sb, (_parse_observation_entries (strip fileContent)).summary_block = some sb →
        containsSub sb (read_observations_for_context fileContent maxTokens) = true) := by
  have hmain : ∃ m, read_observations_for_context fileContent maxTokens
      = (match (_parse_observation_entries (strip fileContent)).summary_block with
         | some sb => lit ("# Observations") ++ '\n' :: '\n' :: sb
         | none => lit ("# Observations"))
        ++ (((_parse_observation_entries (strip fileContent)).entries.filter
            (fun e => e.resolved.isNone)).drop m).flatMap
          (fun e => lit ("\n\n---\n") ++ e.raw) := by
    simp only [read_observations_for_context]
    rw [if_neg (by simp [hne, hnd])]
    set parsed := _parse_observation_entries (strip fileContent) with hparsed
    set base := (match parsed.summary_block with
       | some sb => lit ("# Observations") ++ '\n' :: '\n' :: sb
       | none => lit ("# Observations")) with hbase
    set active := parsed.entries.filter (fun e => e.resolved.isNone) with hactive
    obtain ⟨k, hk⟩ := pickGreedy_take
      ((maxTokens : Int) - (estimate_tokens base : Int))
      (active.drop (active.length - OBSERVATIONS_KEEP_RECENT)).reverse
    rw [hk, ← List.rtake_eq_reverse_take_reverse]
    refine ⟨((active.drop (active.length - OBSERVATIONS_KEEP_RECENT)).length - k)
      + (active.length - OBSERVATIONS_KEEP_RECENT), ?_⟩
    rw [show List.rtake (active.drop (active.length - OBSERVATIONS_KEEP_RECENT)) k
        = (active.drop (active.length - OBSERVATIONS_KEEP_RECENT)).drop
            ((active.drop (active.length - OBSERVATIONS_KEEP_RECENT)).length - k)
      from rfl]
    rw [List.drop_drop]
    rw [Nat.add_comm (active.length - OBSERVATIONS_KEEP_RECENT)
      ((List.drop (active.length - OBSERVATIONS_KEEP_RECENT) active).length - k)]
  refine ⟨hmain, ?_⟩
  intro sb hsb
  obtain ⟨m, hm⟩ := hmain
  rw [hm, hsb]
  rw [containsSub_iff]
  refine ⟨lit ("# Observations") ++ ['\n', '\n'],
    (((_parse_observation_entries (strip fileContent)).entries.filter
        (fun e => e.resolved.isNone)).drop m).flatMap
      (fun e => lit ("\n\n---\n") ++ e.raw), ?_⟩
  simp

def c7content : Str :=
  lit ("# Observations\n\n## Summarized observations (through 2025-01-05)\nold stuff\n\n---\n[2025-01-06 10:00]\n[resolved: done]\nalpha\n\n---\n[2025-01-07 11:00]\nbeta\n")

theorem read_for_context_excludes_resolved_witness :
    (∃ m, read_observations_for_context c7content 400
        = (match (_parse_observation_entries (strip c7content)).summary_block with
           | some sb => lit ("# Observations") ++ '\n' :: '\n' :: sb
           | none => lit ("# Observations"))
          ++ (((_parse_observation_entries (strip c7content)).entries.filter
              (fun e => e.resolved.isNone)).drop m).flatMap
            (fun e => lit ("\n\n---\n") ++ e.raw))
    ∧ (∀ sb, (_parse_observation_entries (strip c7content)).summary_block = some sb →
        containsSub sb (read_observations_for_context c7content 400) = true) :=
  read_for_context_excludes_resolved c7content 400 (by decide) (by decide)

-- ---------------------------------------------------------------------------
-- JSON extraction (llm.py 166-251).
--
-- `json.loads` is modelled by a fuelled recursive-descent parser over a
-- JSON value type.  The model is faithful on the object/array/string/int
-- fragment exercised here: strings support the single-character escapes
-- and `\uXXXX` (surrogate pairing is not modelled), raw control
-- characters are rejected (strict mode), numbers are integers (a
-- fraction or exponent makes the model reject where Python would parse
-- a float - no claim below feeds a float), objects keep their key order,
-- and input must be fully consumed up to trailing whitespace.
-- Python's truthiness of the parsed value ([] / {} / "" / 0 / False /
-- None are falsy) is `truthy`.
-- ---------------------------------------------------------------------------

inductive Json
  | null
  | b (v : Bool)
  | num (n : Int)
  | str (s : Str)
  | arr (xs : List Json)
  | obj (kvs : List (Str × Json))
deriving Repr, Inhabited

/-- Python `\s` (ASCII part), also the JSON whitespace set. -/
def isPyWS (c : Char) : Bool :=
  c = ' ' || c = '\t' || c = '\n' || c = '\x0d' || c = '\x0c' || c = '\x0b'

def skipWS (s : Str) : Str := s.dropWhile isPyWS

def escChar (e : Char) : Option Char :=
  if e = '"' then some '"'
  else if e = '\\' then some '\\'
  else if e = '/' then some '/'
  else if e = 'b' then some (Char.ofNat 8)
  else if e = 'f' then some (Char.ofNat 12)
  else if e = 'n' then some '\n'
  else if e = 'r' then some (Char.ofNat 13)
  else if e = 't' then some '\t'
  else none

def hexVal (c : Char) : Option Nat :=
  if '0' ≤ c ∧ c ≤ '9' then some (c.toNat - 48)
  else if 'a' ≤ c ∧ c ≤ 'f' then some (c.toNat - 87)
  else if 'A' ≤ c ∧ c ≤ 'F' then some (c.toNat - 55)
  else none

/-- Body of a JSON string literal, after the opening quote: returns the
decoded characters and the input after the closing quote (fuelled; the
callers pass `length + 1`, which always suffices). -/
def parseStrChars : Nat → Str → Option (Str × Str)
  | 0, _ => none
  | Nat.succ fuel, s =>
    match s with
    | [] => none
    | c :: rest =>
      if c = '"' then some ([], rest)
      else if c = '\\' then
        match rest with
        | [] => none
        | e :: rest2 =>
          match escChar e with
          | some ce => (parseStrChars fuel rest2).map (fun p => (ce :: p.1, p.2))
          | none =>
            if e = 'u' then
              match rest2 with
              | h1 :: h2 :: h3 :: h4 :: rest3 =>
                match hexVal h1, hexVal h2, hexVal h3, hexVal h4 with
                | some a, some b, some c2, some d =>
                  (parseStrChars fuel rest3).map (fun p =>
                    (Char.ofNat (((a * 16 + b) * 16 + c2) * 16 + d) :: p.1, p.2))
                | _, _, _, _ => none
              | _ => none
            else none
      else if c.toNat < 32 then none
      else (parseStrChars fuel rest).map (fun p => (c :: p.1, p.2))

def natOfDigits (ds : Str) : Nat :=
  ds.foldl (fun a c => a * 10 + (c.toNat - 48)) 0

def parseNatTok (s : Str) : Option (Nat × Str) :=
  let ds := s.takeWhile isDig
  let rest := s.dropWhile isDig
  if ds = [] then none
  else if 1 < ds.length ∧ ds.headI = '0' then none
  else
    match rest with
    | c :: _ =>
      if c = '.' ∨ c = 'e' ∨ c = 'E' then none else some (natOfDigits ds, rest)
    | [] => some (natOfDigits ds, rest)

def parseIntTok (s : Str) : Option (Int × Str) :=
  match s with
  | '-' :: rest => (parseNatTok rest).map (fun p => (-(p.1 : Int), p.2))
  | _ => (parseNatTok s).map (fun p => ((p.1 : Int), p.2))

mutual

def parseValue : Nat → Str → Option (Json × Str)
  | 0, _ => none
  | Nat.succ fuel, s =>
    match s with
    | [] => none
    | c :: rest =>
      if c = '{' then parseObjBody fuel (skipWS rest)
      else if c = '[' then parseArrBody fuel (skipWS rest)
      else if c = '"' then
        (parseStrChars (rest.length + 1) rest).map (fun p => (Json.str p.1, p.2))
      else
        match (lit ("true")).isPrefixOf? s with
        | some r => some (Json.b true, r)
        | none =>
          match (lit ("false")).isPrefixOf? s with
          | some r => some (Json.b false, r)
          | none =>
            match (lit ("null")).isPrefixOf? s with
            | some r => some (Json.null, r)
            | none => (parseIntTok s).map (fun p => (Json.num p.1, p.2))

def parseObjBody : Nat → Str → Option (Json × Str)
  | 0, _ => none
  | Nat.succ fuel, s =>
    match s with
    | '}' :: rest => some (Json.obj [], rest)
    | _ => parseMembers fuel [] s

def parseMembers : Nat → List (Str × Json) → Str → Option (Json × Str)
  | 0, _, _ => none
  | Nat.succ fuel, acc, s =>
    match s with
    | '"' :: rest =>
      match parseStrChars (rest.length + 1) rest with
      | none => none
      | some (k, r1) =>
        match skipWS r1 with
        | ':' :: r2 =>
          match parseValue fuel (skipWS r2) with
          | none => none
          | some (v, r3) =>
            match skipWS r3 with
            | ',' :: r4 => parseMembers fuel (acc ++ [(k, v)]) (skipWS r4)
            | '}' :: r4 => some (Json.obj (acc ++ [(k, v)]), r4)
            | _ => none
        | _ => none
    | _ => none

def parseArrBody : Nat → Str → Option (Json × Str)
  | 0, _ => none
  | Nat.succ fuel, s =>
    match s with
    | ']' :: rest => some (Json.arr [], rest)
    | _ => parseItems fuel [] s

def parseItems : Nat → List Json → Str → Option (Json × Str)
  | 0, _, _ => none
  | Nat.succ fuel, acc, s =>
    match parseValue fuel s with
    | none => none
    | some (v, r1) =>
      match skipWS r1 with
      | ',' :: r2 => parseItems fuel (acc ++ [v]) (skipWS r2)
      | ']' :: r2 => some (Json.arr (acc ++ [v]), r2)
      | _ => none

end

/-- `json.loads` (model): parse a full document, allowing surrounding
whitespace only. -/
def try_parse (s : Str) : Option Json :=
  match parseValue (s.length + 1) (skipWS s) with
  | some (v, rest) => if skipWS rest = [] then some v else none
  | none => none

def truthy : Json → Bool
  | Json.null => false
  | Json.b v => v
  | Json.num n => n ≠ 0
  | Json.str s => !s.isEmpty
  | Json.arr xs => !xs.isEmpty
  | Json.obj kvs => !kvs.isEmpty

/-- `try_parse` followed by the pervasive `if parsed:` truthiness check. -/
def tryTruthy (s : Str) : Option Json :=
  match try_parse s with
  | some v => if truthy v then some v else none
  | none => none

-- ---------------------------------------------------------------------------
-- Markdown fence handling of extract_json_from_response (llm.py 179-193).
--
-- `re.sub(r"^```(?:json)?\s*\n?", "", content)`: anchored at the string
-- start; `\s*` greedily eats the whitespace run so the trailing `\n?`
-- adds nothing.  `re.sub(r"\n?```\s*$", "", content)`: anchored at the
-- end of the (already stripped, hence newline-free at the end) string:
-- an optional newline, three backticks, trailing whitespace.
-- `re.search(r"```(?:json)?\s*([\s\S]*?)```", content)`: the capture
-- runs from the end of the whitespace run after the first fence to the
-- next fence.
-- ---------------------------------------------------------------------------

def stripFenceOpen (s : Str) : Str :=
  match (lit ("```")).isPrefixOf? s with
  | none => s
  | some r1 =>
    (match (lit ("json")).isPrefixOf? r1 with
     | some r2 => r2
     | none => r1).dropWhile isPyWS

def stripFenceClose (s : Str) : Str :=
  let revws := s.reverse.dropWhile isPyWS
  match (lit ("```")).isPrefixOf? revws with
  | none => s
  | some rest =>
    (match rest with
     | '\n' :: rest2 => rest2
     | _ => rest).reverse

def fenceAt (s : Str) : Option Nat :=
  (List.range (s.length + 1)).find? (fun i => (lit ("```")).isPrefixOf (s.drop i))

def findFencedBlock (s : Str) : Option Str :=
  match fenceAt s with
  | none => none
  | some i =>
    let after := s.drop (i + 3)
    let body := (match (lit ("json")).isPrefixOf? after with
      | some r => r
      | none => after).dropWhile isPyWS
    match fenceAt body with
    | none => none
    | some j => some (body.take j)

/-- `_repair_truncated_json`'s scan state: the string flag, the pending
escape flag, and the stack of expected closers (Python appends at the
end and joins `reversed(stack)`; here the head is the top, so the
closing suffix is the stack in list order). -/
def repairStep (r : Bool × Bool × List Char) (c : Char) : Bool × Bool × List Char :=
  if r.2.1 then (r.1, false, r.2.2)
  else if r.1 then
    if c = '\\' then (r.1, true, r.2.2)
    else if c = '"' then (false, false, r.2.2)
    else (r.1, false, r.2.2)
  else if c = '"' then (true, false, r.2.2)
  else if c = '{' then (r.1, false, '}' :: r.2.2)
  else if c = '[' then (r.1, false, ']' :: r.2.2)
  else if (c = '}' ∨ c = ']') ∧ r.2.2.head? = some c then (r.1, false, r.2.2.tail)
  else (r.1, false, r.2.2)

def repairScan (s : Str) (r : Bool × Bool × List Char) : Bool × Bool × List Char :=
  s.foldl repairStep r

/-- `_repair_truncated_json` (llm.py 211-251). -/
def _repair_truncated_json (s : Str) : Option Str :=
  if s = [] then none
  else if ¬ (lit ("\x7b")).isPrefixOf (strip s) then none
  else
    let r := repairScan s (false, false, [])
    let suffix := (if r.1 then ['"'] else []) ++ r.2.2
    if suffix = [] then none else some (s ++ suffix)

/-- `extract_json_from_response` (llm.py 166-208). -/
def extract_json_from_response (content : Str) : Option Json :=
  let c0 := strip content
  if c0 = [] then none
  else
    let c := strip (stripFenceClose (stripFenceOpen c0))
    match tryTruthy c with
    | some v => some v
    | none =>
      match (match findFencedBlock c with
             | some inner => tryTruthy (strip inner)
             | none => none) with
      | some v => some v
      | none =>
        let cand := c.dropWhile (fun ch => ¬ (ch = '{'))
        if cand = [] then none
        else
          match tryTruthy cand with
          | some v => some v
          | none =>
            match _repair_truncated_json cand with
            | some rep => tryTruthy rep
            | none => none

/-- C10: the input `"{}"` is a complete, valid JSON object, and the
direct parse succeeds, yet `extract_json_from_response` returns none:
every successfully parsed candidate is accepted only if it is truthy,
and the empty dict is falsy. -/
theorem extract_empty_object_none :
    (try_parse (lit ("\x7b\x7d"))).isSome = true
    ∧ extract_json_from_response (lit ("\x7b\x7d")) = none := by
  constructor
  · decide
  · rfl

/-- C9 (counterexample): `{"a": 1, "b": "x\` is a prefix of the valid
JSON object `{"a": 1, "b": "x\"y"}`, truncated mid-way through a string
value inside the open object, with key `"a"` completed before the
truncation point.  The repair path fires (it appends `"` and `}`), but
because the truncation falls right after a backslash the synthesized
quote is read as an escaped quote, the repaired text does not parse,
and `extract_json_from_response` returns none instead of an object. -/
theorem extract_backslash_truncation_counterexample :
    (lit ("\x7b\"a\": 1, \"b\": \"x\\")).isPrefixOf
      (lit ("\x7b\"a\": 1, \"b\": \"x\\\"y\"\x7d")) = true
    ∧ (try_parse (lit ("\x7b\"a\": 1, \"b\": \"x\\\"y\"\x7d"))).isSome = true
    ∧ (_repair_truncated_json (lit ("\x7b\"a\": 1, \"b\": \"x\\"))).isSome = true
    ∧ extract_json_from_response (lit ("\x7b\"a\": 1, \"b\": \"x\\")) = none := by
  refine ⟨by decide, by decide, by decide, rfl⟩

-- ---------------------------------------------------------------------------
-- C9: the repair path on a canonical truncated-object family.
-- `plainChar`: printable, not a quote, backslash or backtick - the
-- string alphabet of the family.
-- ---------------------------------------------------------------------------

def plainChar (c : Char) : Bool :=
  (32 ≤ c.toNat) && (c ≠ '"') && (c ≠ '\\') && (c ≠ '`')

theorem plainChar_facts (c : Char) (h : plainChar c = true) :
    c ≠ '"' ∧ c ≠ '\\' ∧ c ≠ '`' ∧ 32 ≤ c.toNat := by
  simp only [plainChar, Bool.and_eq_true, decide_eq_true_eq] at h
  exact ⟨h.1.1.2, h.1.2, h.2, h.1.1.1⟩

theorem parseStrChars_plain (u : Str) (hu : u.all plainChar = true) (v : Str) :
    ∀ fuel, u.length < fuel → parseStrChars fuel (u ++ '"' :: v) = some (u, v) := by
  induction u with
  | nil =>
    intro fuel hf
    obtain ⟨f, rfl⟩ : ∃ f, fuel = f + 1 := ⟨fuel - 1, by omega⟩
    simp only [List.nil_append, parseStrChars]
    rw [if_pos trivial]
  | cons c u' ih =>
    intro fuel hf
    obtain ⟨f, rfl⟩ : ∃ f, fuel = f + 1 := ⟨fuel - 1, by omega⟩
    rw [List.all_cons, Bool.and_eq_true] at hu
    obtain ⟨hq, hb, _, hge⟩ := plainChar_facts c hu.1
    rw [List.cons_append]
    simp only [parseStrChars]
    rw [if_neg hq, if_neg hb, if_neg (by omega)]
    rw [ih hu.2 f (by simp at hf; omega)]
    rfl

theorem parseStrChars_unterminated (u : Str) (hu : u.all plainChar = true) :
    ∀ fuel, parseStrChars fuel u = none := by
  induction u with
  | nil =>
    intro fuel
    cases fuel with
    | zero => rfl
    | succ f => rfl
  | cons c u' ih =>
    intro fuel
    cases fuel with
    | zero => rfl
    | succ f =>
      rw [List.all_cons, Bool.and_eq_true] at hu
      obtain ⟨hq, hb, _, hge⟩ := plainChar_facts c hu.1
      simp only [parseStrChars]
      rw [if_neg hq, if_neg hb, if_neg (by omega)]
      rw [ih hu.2 f]
      rfl

theorem skipWS_not (c : Char) (s : Str) (h : isPyWS c = false) :
    skipWS (c :: s) = c :: s := by
  unfold skipWS
  rw [List.dropWhile_cons, if_neg (by simp [h])]

theorem skipWS_space (s : Str) : skipWS (' ' :: s) = skipWS s := by
  unfold skipWS
  rw [List.dropWhile_cons, if_pos (by decide)]

/-- One serialized completed pair of the truncated-object family,
including the `", "` separator that precedes the next pair. -/
def serChunk (p : Str × Str) : Str :=
  '"' :: p.1 ++ lit ("\": \"") ++ p.2 ++ ['"'] ++ lit (", ")

/-- The family for claim C9: a flat JSON object with string values,
truncated mid-way through the string value of its last key. -/
def c9content (pairs : List (Str × Str)) (k w : Str) : Str :=
  '{' :: (pairs.flatMap serChunk ++ ('"' :: k ++ lit ("\": \"") ++ w))

theorem serChunk_shape (p : Str × Str) (X : Str) :
    serChunk p ++ X
      = '"' :: (p.1 ++ '"' :: ':' :: ' ' :: '"'
          :: (p.2 ++ '"' :: ',' :: ' ' :: X)) := by
  simp [serChunk, show lit ("\": \"") = ['"', ':', ' ', '"'] from by decide,
    show lit (", ") = [',', ' '] from by decide]

theorem parseMembers_serChunks (pairs : List (Str × Str))
    (hp : ∀ p ∈ pairs, p.1.all plainChar = true ∧ p.2.all plainChar = true)
    (t' : Str) (acc : List (Str × Json)) :
    ∀ fuel, parseMembers (pairs.length + (fuel + 1)) acc
        (pairs.flatMap serChunk ++ '"' :: t')
      = parseMembers (fuel + 1)
          (acc ++ pairs.map (fun p => (p.1, Json.str p.2))) ('"' :: t') := by
  induction pairs generalizing acc with
  | nil =>
    intro fuel
    simp
  | cons p ps ih =>
    intro fuel
    obtain ⟨hp1, hp2⟩ := hp p (List.mem_cons_self p ps)
    rw [List.flatMap_cons, List.append_assoc, serChunk_shape]
    rw [show (p :: ps).length + (fuel + 1)
        = Nat.succ (ps.length + (fuel + 1)) from by
      simp only [List.length_cons]
      omega]
    have hrest : ∃ R', ps.flatMap serChunk ++ '"' :: t' = '"' :: R' := by
      cases ps with
      | nil => exact ⟨t', by simp⟩
      | cons q qs =>
        rw [List.flatMap_cons, List.append_assoc, serChunk_shape]
        exact ⟨_, rfl⟩
    obtain ⟨R', hR⟩ := hrest
    have hk1 := parseStrChars_plain p.1 hp1
      (':' :: ' ' :: '"' :: (p.2 ++ '"' :: ',' :: ' ' :: '"' :: R'))
      ((p.1 ++ '"' :: ':' :: ' ' :: '"'
        :: (p.2 ++ '"' :: ',' :: ' ' :: '"' :: R')).length + 1)
      (by
        simp only [List.length_append, List.length_cons]
        omega)
    have hk2 := parseStrChars_plain p.2 hp2
      (',' :: ' ' :: '"' :: R')
      ((p.2 ++ '"' :: ',' :: ' ' :: '"' :: R').length + 1)
      (by
        simp only [List.length_append, List.length_cons]
        omega)
    have hfe : ps.length + (fuel + 1) = (ps.length + fuel).succ := rfl
    have hcq1 : (('"' : Char) = '{') = False := eq_false (by decide)
    have hcq2 : (('"' : Char) = '[') = False := eq_false (by decide)
    have hcq3 : (('"' : Char) = '"') = True := eq_true rfl
    have hleft : parseMembers (Nat.succ (ps.length + (fuel + 1))) acc
        ('"' :: (p.1 ++ '"' :: ':' :: ' ' :: '"'
          :: (p.2 ++ '"' :: ',' :: ' ' :: '"' :: R')))
        = parseMembers ((ps.length + fuel).succ)
            (acc ++ [(p.1, Json.str p.2)]) ('"' :: R') := by
      simp only [parseMembers, parseValue, hk1, hk2, hfe, hcq1, hcq2, hcq3,
        if_false, if_true, Option.map_some', skipWS_not ':' _ (by decide),
        skipWS_space, skipWS_not '"' _ (by decide), skipWS_not ',' _ (by decide)]
      rfl
    rw [hR, hleft]
    rw [show (ps.length + fuel).succ = ps.length + (fuel + 1) from rfl]
    rw [← hR]
    rw [ih (fun q hq => hp q (List.mem_cons_of_mem p hq))
      (acc ++ [(p.1, Json.str p.2)]) fuel]
    simp

theorem parseMembers_truncated (k w : Str) (hk : k.all plainChar = true)
    (hw : w.all plainChar = true) (acc : List (Str × Json)) (fuel : Nat) :
    parseMembers (fuel + 2) acc ('"' :: (k ++ '"' :: ':' :: ' ' :: '"' :: w))
      = none := by
  have hk1 := parseStrChars_plain k hk (':' :: ' ' :: '"' :: w)
    ((k ++ '"' :: ':' :: ' ' :: '"' :: w).length + 1)
    (by
      simp only [List.length_append, List.length_cons]
      omega)
  have hnone := parseStrChars_unterminated w hw (w.length + 1)
  have hcq1 : (('"' : Char) = '{') = False := eq_false (by decide)
  have hcq2 : (('"' : Char) = '[') = False := eq_false (by decide)
  have hcq3 : (('"' : Char) = '"') = True := eq_true rfl
  simp only [show fuel + 2 = Nat.succ (fuel + 1) from rfl, parseMembers, hk1,
    skipWS_not ':' _ (by decide), skipWS_space, skipWS_not '"' _ (by decide),
    parseValue, hcq1, hcq2, hcq3, if_false, if_true, hnone, Option.map_none']

theorem parseMembers_final (k w : Str) (hk : k.all plainChar = true)
    (hw : w.all plainChar = true) (acc : List (Str × Json)) (fuel : Nat) :
    parseMembers (fuel + 2) acc
        ('"' :: (k ++ '"' :: ':' :: ' ' :: '"' :: (w ++ '"' :: '}' :: [])))
      = some (Json.obj (acc ++ [(k, Json.str w)]), []) := by
  have hk1 := parseStrChars_plain k hk (':' :: ' ' :: '"' :: (w ++ '"' :: '}' :: []))
    ((k ++ '"' :: ':' :: ' ' :: '"' :: (w ++ '"' :: '}' :: [])).length + 1)
    (by
      simp only [List.length_append, List.length_cons]
      omega)
  have hk2 := parseStrChars_plain w hw ('}' :: [])
    ((w ++ '"' :: '}' :: []).length + 1)
    (by
      simp only [List.length_append, List.length_cons]
      omega)
  have hcq1 : (('"' : Char) = '{') = False := eq_false (by decide)
  have hcq2 : (('"' : Char) = '[') = False := eq_false (by decide)
  have hcq3 : (('"' : Char) = '"') = True := eq_true rfl
  simp only [show fuel + 2 = Nat.succ (fuel + 1) from rfl, parseMembers, hk1,
    skipWS_not ':' _ (by decide), skipWS_space, skipWS_not '"' _ (by decide),
    parseValue, hcq1, hcq2, hcq3, if_false, if_true, hk2, Option.map_some',
    skipWS_not '}' _ (by decide)]

theorem c9content_shape (pairs : List (Str × Str)) (k w : Str) :
    c9content pairs k w
      = '{' :: (pairs.flatMap serChunk
          ++ '"' :: (k ++ '"' :: ':' :: ' ' :: '"' :: w)) := by
  simp [c9content, show lit ("\": \"") = ['"', ':', ' ', '"'] from by decide]

theorem serChunk_len_ge (pairs : List (Str × Str)) :
    pairs.length ≤ (pairs.flatMap serChunk).length := by
  induction pairs with
  | nil => simp
  | cons p ps ih =>
    rw [List.flatMap_cons, List.length_append, List.length_cons]
    have h1 : (serChunk p).length
        = p.1.length + 4 + p.2.length + 1 + 2 + 1 := by
      simp [serChunk, show (lit ("\": \"")).length = 4 from by decide,
        show (lit (", ")).length = 2 from by decide]
      omega
    omega

theorem obj_head_quote (pairs : List (Str × Str)) (T : Str) :
    ∃ R', pairs.flatMap serChunk ++ '"' :: T = '"' :: R' := by
  cases pairs with
  | nil => exact ⟨T, by simp⟩
  | cons q qs =>
    rw [List.flatMap_cons, List.append_assoc, serChunk_shape]
    exact ⟨_, rfl⟩

theorem try_parse_c9content (pairs : List (Str × Str)) (k w : Str)
    (hp : ∀ p ∈ pairs, p.1.all plainChar = true ∧ p.2.all plainChar = true)
    (hk : k.all plainChar = true) (hw : w.all plainChar = true) :
    try_parse (c9content pairs k w) = none := by
  rw [c9content_shape]
  unfold try_parse
  rw [skipWS_not '{' _ (by decide)]
  have hge := serChunk_len_ge pairs
  have hlen : ('{' :: (pairs.flatMap serChunk
      ++ '"' :: (k ++ '"' :: ':' :: ' ' :: '"' :: w))).length + 1
      = Nat.succ (Nat.succ ((pairs.flatMap serChunk
          ++ '"' :: (k ++ '"' :: ':' :: ' ' :: '"' :: w)).length)) := by
    simp
  rw [hlen]
  have hcb1 : (('{' : Char) = '{') = True := eq_true rfl
  obtain ⟨R', hR⟩ := obj_head_quote pairs (k ++ '"' :: ':' :: ' ' :: '"' :: w)
  have hmem : parseMembers ((pairs.flatMap serChunk
      ++ '"' :: (k ++ '"' :: ':' :: ' ' :: '"' :: w)).length) []
      (pairs.flatMap serChunk ++ '"' :: (k ++ '"' :: ':' :: ' ' :: '"' :: w))
      = none := by
    rw [show (pairs.flatMap serChunk
        ++ '"' :: (k ++ '"' :: ':' :: ' ' :: '"' :: w)).length
      = pairs.length + ((((pairs.flatMap serChunk).length - pairs.length
          + k.length + w.length + 3) + 1) + 1) from by
      simp only [List.length_append, List.length_cons]
      omega]
    rw [parseMembers_serChunks pairs hp _ []]
    rw [show (((pairs.flatMap serChunk).length - pairs.length
        + k.length + w.length + 3) + 1) + 1
      = (((pairs.flatMap serChunk).length - pairs.length
        + k.length + w.length + 3)) + 2 from by omega]
    exact parseMembers_truncated k w hk hw _ _
  simp only [parseValue, hcb1, if_true]
  rw [hR, skipWS_not '"' _ (by decide)]
  rw [hR] at hmem
  have hobj : parseObjBody (('"' :: R' : Str).length + 1) ('"' :: R') = none := by
    rw [show (('"' :: R' : Str).length + 1)
        = Nat.succ (('"' :: R' : Str).length) from rfl]
    simp only [parseObjBody]
    exact hmem
  rw [hobj]

theorem c9repaired_shape (pairs : List (Str × Str)) (k w : Str) :
    c9content pairs k w ++ ['"', '}']
      = '{' :: (pairs.flatMap serChunk
          ++ '"' :: (k ++ '"' :: ':' :: ' ' :: '"' :: (w ++ '"' :: '}' :: []))) := by
  rw [c9content_shape]
  simp

theorem try_parse_c9repaired (pairs : List (Str × Str)) (k w : Str)
    (hp : ∀ p ∈ pairs, p.1.all plainChar = true ∧ p.2.all plainChar = true)
    (hk : k.all plainChar = true) (hw : w.all plainChar = true) :
    try_parse (c9content pairs k w ++ ['"', '}'])
      = some (Json.obj (pairs.map (fun p => (p.1, Json.str p.2))
          ++ [(k, Json.str w)])) := by
  rw [c9repaired_shape]
  unfold try_parse
  rw [skipWS_not '{' _ (by decide)]
  have hge := serChunk_len_ge pairs
  have hlen : ('{' :: (pairs.flatMap serChunk
      ++ '"' :: (k ++ '"' :: ':' :: ' ' :: '"' :: (w ++ '"' :: '}' :: [])))).length + 1
      = Nat.succ (Nat.succ ((pairs.flatMap serChunk
          ++ '"' :: (k ++ '"' :: ':' :: ' '
            :: '"' :: (w ++ '"' :: '}' :: []))).length)) := by
    simp
  rw [hlen]
  have hcb1 : (('{' : Char) = '{') = True := eq_true rfl
  obtain ⟨R', hR⟩ := obj_head_quote pairs
    (k ++ '"' :: ':' :: ' ' :: '"' :: (w ++ '"' :: '}' :: []))
  have hmem : parseMembers ((pairs.flatMap serChunk
      ++ '"' :: (k ++ '"' :: ':' :: ' '
        :: '"' :: (w ++ '"' :: '}' :: []))).length) []
      (pairs.flatMap serChunk ++ '"' :: (k ++ '"' :: ':' :: ' '
        :: '"' :: (w ++ '"' :: '}' :: [])))
      = some (Json.obj (pairs.map (fun p => (p.1, Json.str p.2))
          ++ [(k, Json.str w)]), []) := by
    rw [show (pairs.flatMap serChunk
        ++ '"' :: (k ++ '"' :: ':' :: ' '
          :: '"' :: (w ++ '"' :: '}' :: []))).length
      = pairs.length + ((((pairs.flatMap serChunk).length - pairs.length
          + k.length + w.length + 5) + 1) + 1) from by
      simp only [List.length_append, List.length_cons, List.length_nil]
      omega]
    rw [parseMembers_serChunks pairs hp _ []]
    rw [show (((pairs.flatMap serChunk).length - pairs.length
        + k.length + w.length + 5) + 1) + 1
      = (((pairs.flatMap serChunk).length - pairs.length
        + k.length + w.length + 5)) + 2 from by omega]
    rw [parseMembers_final k w hk hw _ _]
    simp
  simp only [parseValue, hcb1, if_true]
  rw [hR, skipWS_not '"' _ (by decide)]
  rw [hR] at hmem
  have hobj : parseObjBody (('"' :: R' : Str).length + 1) ('"' :: R')
      = some (Json.obj (pairs.map (fun p => (p.1, Json.str p.2))
          ++ [(k, Json.str w)]), []) := by
    rw [show (('"' :: R' : Str).length + 1)
        = Nat.succ (('"' :: R' : Str).length) from rfl]
    simp only [parseObjBody]
    exact hmem
  rw [hobj]
  rfl

theorem repairScan_append (a b : Str) (r : Bool × Bool × List Char) :
    repairScan (a ++ b) r = repairScan b (repairScan a r) := by
  unfold repairScan
  rw [List.foldl_append]

theorem repairScan_cons (c : Char) (s : Str) (r : Bool × Bool × List Char) :
    repairScan (c :: s) r = repairScan s (repairStep r c) := rfl

theorem repairStep_inStr_plain (c : Char) (st : List Char)
    (hq : c ≠ '"') (hb : c ≠ '\\') :
    repairStep (true, false, st) c = (true, false, st) := by
  unfold repairStep
  rw [if_neg (by simp), if_pos (by simp), if_neg hb, if_neg hq]

theorem repairScan_inStr (u : Str) (hu : u.all plainChar = true)
    (st : List Char) : repairScan u (true, false, st) = (true, false, st) := by
  induction u with
  | nil => rfl
  | cons c u' ih =>
    rw [List.all_cons, Bool.and_eq_true] at hu
    obtain ⟨hq, hb, _, _⟩ := plainChar_facts c hu.1
    rw [repairScan_cons, repairStep_inStr_plain c st hq hb, ih hu.2]

theorem repairScan_chunk (p : Str × Str)
    (hp1 : p.1.all plainChar = true) (hp2 : p.2.all plainChar = true)
    (st : List Char) :
    repairScan (serChunk p) (false, false, st) = (false, false, st) := by
  have hshape : serChunk p
      = '"' :: (p.1 ++ '"' :: ':' :: ' '
          :: '"' :: (p.2 ++ '"' :: ',' :: ' ' :: [])) := by
    have := serChunk_shape p []
    simpa using this
  rw [hshape]
  rw [repairScan_cons, show repairStep (false, false, st) '"' = (true, false, st) from rfl]
  rw [repairScan_append, repairScan_inStr p.1 hp1]
  rw [repairScan_cons, show repairStep (true, false, st) '"' = (false, false, st) from rfl]
  rw [repairScan_cons, show repairStep (false, false, st) ':' = (false, false, st) from rfl]
  rw [repairScan_cons, show repairStep (false, false, st) ' ' = (false, false, st) from rfl]
  rw [repairScan_cons, show repairStep (false, false, st) '"' = (true, false, st) from rfl]
  rw [repairScan_append, repairScan_inStr p.2 hp2]
  rw [repairScan_cons, show repairStep (true, false, st) '"' = (false, false, st) from rfl]
  rw [repairScan_cons, show repairStep (false, false, st) ',' = (false, false, st) from rfl]
  rw [repairScan_cons, show repairStep (false, false, st) ' ' = (false, false, st) from rfl]
  rfl

theorem repairScan_chunks (pairs : List (Str × Str))
    (hp : ∀ p ∈ pairs, p.1.all plainChar = true ∧ p.2.all plainChar = true)
    (st : List Char) :
    repairScan (pairs.flatMap serChunk) (false, false, st) = (false, false, st) := by
  induction pairs with
  | nil => rfl
  | cons p ps ih =>
    obtain ⟨hp1, hp2⟩ := hp p (List.mem_cons_self p ps)
    rw [List.flatMap_cons, repairScan_append, repairScan_chunk p hp1 hp2,
      ih (fun q hq => hp q (List.mem_cons_of_mem p hq))]

theorem rstrip_brace_head (t : Str) : ∃ t', rstrip ('{' :: t) = '{' :: t' := by
  have hne : rstrip ('{' :: t) ≠ [] := by
    intro hc
    rw [rstrip_eq_rdropWhile] at hc
    unfold List.rdropWhile at hc
    have : ('{' :: t).reverse.dropWhile isWS = [] := by
      have := congrArg List.reverse hc
      simpa using this
    rw [List.dropWhile_eq_nil_iff] at this
    have := this '{' (by simp)
    exact absurd this (by decide)
  have hpre : rstrip ('{' :: t) <+: '{' :: t := by
    rw [rstrip_eq_rdropWhile]
    exact ( List.rdropWhile_prefix isWS ('{' :: t) )
  obtain ⟨u, hu⟩ := hpre
  cases hx : rstrip ('{' :: t) with
  | nil => exact absurd hx hne
  | cons c l =>
    rw [hx, List.cons_append] at hu
    have hc : c = '{' := (List.cons.injEq _ _ _ _ ▸ hu).1
    subst hc
    exact ⟨l, rfl⟩

theorem strip_brace_startswith (t : Str) :
    (lit ("\x7b")).isPrefixOf (strip ('{' :: t)) = true := by
  obtain ⟨t', ht⟩ := rstrip_brace_head t
  show (lit ("\x7b")).isPrefixOf (lstrip (rstrip ('{' :: t))) = true
  rw [ht, lstrip_cons_not_ws '{' t' (by decide)]
  simp [show lit ("\x7b") = ['{'] from by decide, List.isPrefixOf_cons₂]

theorem repair_c9content (pairs : List (Str × Str)) (k w : Str)
    (hp : ∀ p ∈ pairs, p.1.all plainChar = true ∧ p.2.all plainChar = true)
    (hk : k.all plainChar = true) (hw : w.all plainChar = true) :
    _repair_truncated_json (c9content pairs k w)
      = some (c9content pairs k w ++ ['"', '}']) := by
  have hscan : repairScan (c9content pairs k w) (false, false, [])
      = (true, false, ['}']) := by
    rw [c9content_shape]
    rw [repairScan_cons,
      show repairStep (false, false, ([] : List Char)) '{'
        = (false, false, ['}']) from rfl]
    rw [repairScan_append, repairScan_chunks pairs hp]
    rw [repairScan_cons,
      show repairStep (false, false, ['}']) '"' = (true, false, ['}']) from rfl]
    rw [repairScan_append, repairScan_inStr k hk]
    rw [repairScan_cons,
      show repairStep (true, false, ['}']) '"' = (false, false, ['}']) from rfl]
    rw [repairScan_cons,
      show repairStep (false, false, ['}']) ':' = (false, false, ['}']) from rfl]
    rw [repairScan_cons,
      show repairStep (false, false, ['}']) ' ' = (false, false, ['}']) from rfl]
    rw [repairScan_cons,
      show repairStep (false, false, ['}']) '"' = (true, false, ['}']) from rfl]
    rw [repairScan_inStr w hw]
  unfold _repair_truncated_json
  rw [if_neg (by rw [c9content_shape]; simp)]
  rw [if_neg (by
    rw [c9content_shape]
    rw [strip_brace_startswith]
    simp)]
  rw [hscan]
  simp

theorem stripFenceOpen_brace (t : Str) : stripFenceOpen ('{' :: t) = '{' :: t := rfl

theorem isPrefixOf?_ticks_none (c : Char) (x : Str) (hbt : c ≠ '`') :
    (lit ("```")).isPrefixOf? (c :: x) = none := by
  rw [show lit ("```") = '`' :: '`' :: '`' :: ([] : Str) from by decide]
  show List.isPrefixOf? ('`' :: ('`' :: '`' :: [])) (c :: x) = none
  unfold List.isPrefixOf?
  rw [if_neg (by
    intro hc
    rw [beq_iff_eq] at hc
    exact hbt hc.symm)]

theorem stripFenceClose_of_last (s : Str) (pre : Str) (c : Char)
    (hs : s = pre ++ [c]) (hws : isPyWS c = false) (hbt : c ≠ '`') :
    stripFenceClose s = s := by
  unfold stripFenceClose
  rw [hs]
  rw [List.reverse_append]
  simp only [List.reverse_cons, List.reverse_nil, List.nil_append,
    List.singleton_append]
  rw [List.dropWhile_cons, if_neg (by simp [hws])]
  rw [isPrefixOf?_ticks_none c _ hbt]

theorem fenceAt_none (s : Str) (h : ∀ c ∈ s, c ≠ '`') : fenceAt s = none := by
  unfold fenceAt
  rw [List.find?_eq_none]
  intro i _
  intro hpre
  have hp2 : lit ("```") <+: s.drop i := List.isPrefixOf_iff_prefix.mp hpre
  have hmem : '`' ∈ s.drop i := hp2.subset (by
    rw [show lit ("```") = '`' :: '`' :: '`' :: ([] : Str) from by decide]
    simp)
  exact h '`' (List.drop_subset i s hmem) rfl

theorem findFencedBlock_none (s : Str) (h : ∀ c ∈ s, c ≠ '`') :
    findFencedBlock s = none := by
  unfold findFencedBlock
  rw [fenceAt_none s h]

theorem serChunk_chars (p : Str × Str) (c : Char) (hc : c ∈ serChunk p) :
    c = '"' ∨ c = ':' ∨ c = ' ' ∨ c = ',' ∨ c ∈ p.1 ∨ c ∈ p.2 := by
  simp only [serChunk, show lit ("\": \"") = ['"', ':', ' ', '"'] from by decide,
    show lit (", ") = [',', ' '] from by decide, List.cons_append,
    List.mem_cons, List.mem_append, List.mem_singleton] at hc
  tauto

theorem c9content_no_backtick (pairs : List (Str × Str)) (k w : Str)
    (hp : ∀ p ∈ pairs, p.1.all plainChar = true ∧ p.2.all plainChar = true)
    (hk : k.all plainChar = true) (hw : w.all plainChar = true) :
    ∀ c ∈ c9content pairs k w, c ≠ '`' := by
  intro c hc
  rw [c9content_shape] at hc
  rcases List.mem_cons.mp hc with hc | hc
  · subst hc; decide
  rcases List.mem_append.mp hc with hc | hc
  · rw [List.mem_flatMap] at hc
    obtain ⟨p, hpm, hcp⟩ := hc
    obtain ⟨hp1, hp2⟩ := hp p hpm
    rcases serChunk_chars p c hcp with h | h | h | h | h | h
    · subst h; decide
    · subst h; decide
    · subst h; decide
    · subst h; decide
    · exact (plainChar_facts c (by
        rw [List.all_eq_true] at hp1
        exact hp1 c h)).2.2.1
    · exact (plainChar_facts c (by
        rw [List.all_eq_true] at hp2
        exact hp2 c h)).2.2.1
  rcases List.mem_cons.mp hc with hc | hc
  · subst hc; decide
  rcases List.mem_append.mp hc with hc | hc
  · exact (plainChar_facts c (by
      rw [List.all_eq_true] at hk
      exact hk c hc)).2.2.1
  rcases List.mem_cons.mp hc with hc | hc
  · subst hc; decide
  rcases List.mem_cons.mp hc with hc | hc
  · subst hc; decide
  rcases List.mem_cons.mp hc with hc | hc
  · subst hc; decide
  rcases List.mem_cons.mp hc with hc | hc
  · subst hc; decide
  · exact (plainChar_facts c (by
      rw [List.all_eq_true] at hw
      exact hw c hc)).2.2.1

theorem c9content_strip (pairs : List (Str × Str)) (k w : Str)
    (hwlast : w = [] ∨ rstrip w = w) :
    strip (c9content pairs k w) = c9content pairs k w := by
  have hr : rstrip (c9content pairs k w) = c9content pairs k w := by
    rcases hwlast with hw0 | hwr
    · subst hw0
      rw [c9content_shape]
      rw [show ('{' :: (pairs.flatMap serChunk
          ++ '"' :: (k ++ '"' :: ':' :: ' ' :: '"' :: ([] : Str))))
        = ('{' :: (pairs.flatMap serChunk
          ++ '"' :: (k ++ '"' :: ':' :: ' ' :: []))) ++ ['"'] from by simp]
      rw [rstrip_eq_rdropWhile,
        List.rdropWhile_concat_neg isWS _ '"' (by decide)]
    · by_cases hw0 : w = []
      · subst hw0
        rw [c9content_shape]
        rw [show ('{' :: (pairs.flatMap serChunk
            ++ '"' :: (k ++ '"' :: ':' :: ' ' :: '"' :: ([] : Str))))
          = ('{' :: (pairs.flatMap serChunk
            ++ '"' :: (k ++ '"' :: ':' :: ' ' :: []))) ++ ['"'] from by simp]
        rw [rstrip_eq_rdropWhile,
          List.rdropWhile_concat_neg isWS _ '"' (by decide)]
      · rw [c9content_shape]
        rw [show ('{' :: (pairs.flatMap serChunk
            ++ '"' :: (k ++ '"' :: ':' :: ' ' :: '"' :: w)))
          = ('{' :: (pairs.flatMap serChunk
            ++ '"' :: (k ++ '"' :: ':' :: ' ' :: ['"']))) ++ w from by simp]
        rw [rstrip_append _ w (by rw [hwr]; exact hw0), hwr]
  show lstrip (rstrip (c9content pairs k w)) = c9content pairs k w
  rw [hr, c9content_shape]
  exact lstrip_cons_not_ws '{' _ (by decide)

theorem isPyWS_eq (c : Char) : isPyWS c = isWS c := by
  unfold isPyWS isWS
  rw [show (Char.ofNat 11) = '\x0b' from by decide,
    show (Char.ofNat 12) = '\x0c' from by decide,
    show ('\r' : Char) = '\x0d' from by decide]
  simp only [Bool.or_comm, Bool.or_left_comm, Bool.or_assoc]

theorem c9content_last (pairs : List (Str × Str)) (k w : Str)
    (hw : w.all plainChar = true) (hwlast : w = [] ∨ rstrip w = w) :
    ∃ pre cl, c9content pairs k w = pre ++ [cl]
      ∧ isPyWS cl = false ∧ cl ≠ '`' := by
  by_cases hw0 : w = []
  · subst hw0
    refine ⟨'{' :: (pairs.flatMap serChunk
      ++ '"' :: (k ++ '"' :: ':' :: ' ' :: [])), '"', ?_, by decide, by decide⟩
    rw [c9content_shape]
    simp
  · rcases List.eq_nil_or_concat w with hc | ⟨l2, cl, hc⟩
    · exact absurd hc hw0
    · have hwr : rstrip w = w := by
        rcases hwlast with h | h
        · exact absurd h hw0
        · exact h
      have hcl_ws : isWS cl = false := by
        by_contra hcon
        rw [Bool.not_eq_false] at hcon
        have : rstrip w = rstrip l2 := by
          rw [hc, List.concat_eq_append, rstrip_eq_rdropWhile,
            List.rdropWhile_concat_pos isWS l2 cl hcon, ← rstrip_eq_rdropWhile]
        rw [hwr, hc] at this
        have hlen := congrArg List.length this
        have hle : (rstrip l2).length ≤ l2.length := by
          rw [rstrip_eq_rdropWhile]
          exact ( List.rdropWhile_prefix isWS l2 ).length_le
        simp [List.concat_eq_append] at hlen
        omega
      have hcl_mem : cl ∈ w := by
        rw [hc]
        simp
      have hcl_plain : plainChar cl = true := by
        rw [List.all_eq_true] at hw
        exact hw cl hcl_mem
      refine ⟨'{' :: (pairs.flatMap serChunk
        ++ '"' :: (k ++ '"' :: ':' :: ' ' :: '"' :: l2)), cl, ?_, ?_, ?_⟩
      · rw [c9content_shape, hc, List.concat_eq_append]
        simp
      · rw [isPyWS_eq]
        exact hcl_ws
      · exact (plainChar_facts cl hcl_plain).2.2.1

/-- C9 (amended family): a flat JSON object of string pairs, truncated
inside the string value of its final key (no escapes, no backticks, and
not immediately after whitespace), exercises the structural-repair path
and yields the object with every completed key, plus the truncated key
bound to the prefix of its value that survived. -/
theorem extract_truncated_object_family (pairs : List (Str × Str)) (k w : Str)
    (hp : ∀ p ∈ pairs, p.1.all plainChar = true ∧ p.2.all plainChar = true)
    (hk : k.all plainChar = true) (hw : w.all plainChar = true)
    (hwlast : w = [] ∨ rstrip w = w) :
    extract_json_from_response (c9content pairs k w)
      = some (Json.obj (pairs.map (fun p => (p.1, Json.str p.2))
          ++ [(k, Json.str w)])) := by
  have hstrip := c9content_strip pairs k w hwlast
  have hne : c9content pairs k w ≠ [] := by
    rw [c9content_shape]
    simp
  have hne' : (c9content pairs k w = []) = False := eq_false hne
  have hfo : stripFenceOpen (c9content pairs k w) = c9content pairs k w := by
    rw [c9content_shape]
    exact stripFenceOpen_brace _
  have hfc : stripFenceClose (c9content pairs k w) = c9content pairs k w := by
    obtain ⟨pre, cl, hdec, hws, hbt⟩ := c9content_last pairs k w hw hwlast
    exact stripFenceClose_of_last _ pre cl hdec hws hbt
  have hcand : (c9content pairs k w).dropWhile (fun ch => ¬ (ch = '{'))
      = c9content pairs k w := by
    rw [c9content_shape]
    rw [List.dropWhile_cons, if_neg (by simp)]
  have htp1 : tryTruthy (c9content pairs k w) = none := by
    unfold tryTruthy
    rw [try_parse_c9content pairs k w hp hk hw]
  have htp2 : tryTruthy (c9content pairs k w ++ ['"', '}'])
      = some (Json.obj (pairs.map (fun p => (p.1, Json.str p.2))
          ++ [(k, Json.str w)])) := by
    unfold tryTruthy
    rw [try_parse_c9repaired pairs k w hp hk hw]
    simp [truthy]
  have hfence := findFencedBlock_none _ (c9content_no_backtick pairs k w hp hk hw)
  have hrep := repair_c9content pairs k w hp hk hw
  simp only [extract_json_from_response, hstrip, hne', if_false, hfo, hfc,
    htp1, hfence, hcand, hrep, htp2]

theorem extract_truncated_object_family_witness :
    extract_json_from_response
        (c9content [(lit ("a"), lit ("v1"))] (lit ("b")) (lit ("x")))
      = some (Json.obj (([(lit ("a"), lit ("v1"))] : List (Str × Str)).map
          (fun p => (p.1, Json.str p.2)) ++ [(lit ("b"), Json.str (lit ("x")))])) :=
  extract_truncated_object_family [(lit ("a"), lit ("v1"))] (lit ("b")) (lit ("x"))
    (by
      intro p hp
      rw [List.mem_singleton] at hp
      subst hp
      exact ⟨by decide, by decide⟩)
    (by decide) (by decide) (Or.inr (by decide))

/-- C6 (counterexample): an unsanitized summary containing a bare `---`
line (here `"part1\n---\npart2"`) is spliced verbatim into the rebuilt
live file by `write_consolidated_observations`; the parser then splits an
extra chunk at that line, so after prepare + commit on an 11-entry file
the live file parses to 11 entries, not `OBSERVATIONS_KEEP_RECENT` = 10. -/
theorem consolidation_summary_separator_counterexample :
    ((prepare_observations_for_consolidation
        (obsContent (('#' :: lit (" Observations")) :: []) c6blocks)).map
      (fun p => (_parse_observation_entries
        (write_consolidated_observations (lit ("part1\n---\npart2"))
          p.recent_entries p.full_content none
          (lit ("2025-02-01"))).new_observations).entries.length))
      = some 11
    ∧ OBSERVATIONS_KEEP_RECENT = 10 := by
  constructor
  · decide
  · rfl
